import Mathlib

/-!
Verification development for a TypeScript chess engine (move calculator,
legal-move filter, board mutator, FEN codec, algebraic-notation codec and
PGN parser).  The definitions below are a shallow embedding of the source
files `board.ts`, `piece.ts`, `moves.ts`, `fen.ts`, `algebraic.ts` and
`pgn.ts`, translated construct by construct:

* JS `Map` objects keyed by 2-character square strings become association
  lists keyed by `Position` (a square string is exactly a file char and a
  rank char, so the keying is the same);
* thrown exceptions become a `thrown`/`Except.error` channel, returned
  error tuples become an `err` channel;
* unbounded JS `for`/`while` loops over board indices become fueled
  recursion; the fuel given always dominates the number of iterations the
  source loop performs on inputs where the source loop terminates.
-/

namespace Chess

/-- Character used by the embedding where the source reads an
out-of-bounds string index (JS gives `undefined`; every character test in
the source is false on `undefined`, and they are false on this char). -/
def nulChar : Char := Char.ofNat 0

/-- Index `i` of a character list, `undefined` modelled as `nulChar`. -/
def cAt (l : List Char) (i : Nat) : Char := l.getD i nulChar

/-- JS `String.prototype.split` with a single-character separator (the
only form the source uses); `"".split(sep)` is `[""]`. -/
def splitChars (sep : Char) (l : List Char) : List (List Char) :=
  l.foldr
    (fun c acc =>
      if c = sep then [] :: acc
      else
        match acc with
        | h :: t => (c :: h) :: t
        | [] => [[c]])
    [[]]

def splitOnJs (s : String) (sep : Char) : List String :=
  (splitChars sep s.toList).map String.mk

def isJsWhitespace (c : Char) : Bool :=
  decide (c = ' ' ∨ c = '\n' ∨ c = '\t' ∨ c = '\r')

/-- JS `String.prototype.trim`. -/
def trimJs (s : String) : String :=
  String.mk (((s.toList.dropWhile isJsWhitespace).reverse.dropWhile
    isJsWhitespace).reverse)

def braceOpen : Char := Char.ofNat 123

def braceClose : Char := Char.ofNat 125

def quoteChar : Char := Char.ofNat 34

/-! ## board.ts -/

def BOARD_RANKS : List Char := ['1', '2', '3', '4', '5', '6', '7', '8']

def BOARD_FILES : List Char := ['a', 'b', 'c', 'd', 'e', 'f', 'g', 'h']

/-- `Array.prototype.indexOf` on a character array (−1 when absent). -/
def idxIn (l : List Char) (c : Char) : Int :=
  match l.findIdx? (fun x => decide (x = c)) with
  | some n => (n : Int)
  | none => -1

/-- `BOARD_FILES[i]`, `undefined` for an out-of-range index, combined with
the `isBoardFile` guard the source applies right after the lookup. -/
def fileAt (i : Int) : Option Char :=
  if 0 ≤ i ∧ i < 8 then some (BOARD_FILES.getD i.toNat 'a') else none

def rankAt (i : Int) : Option Char :=
  if 0 ≤ i ∧ i < 8 then some (BOARD_RANKS.getD i.toNat '1') else none

inductive PlayerColor where
  | white
  | black
deriving DecidableEq, Repr

/-- `PlayerColor` values are the strings "white" / "black" in the source;
this is the string the template literal in `boardToFen` interpolates. -/
def PlayerColor.str : PlayerColor → String
  | .white => "white"
  | .black => "black"

/-- A board square: a file character and a rank character (the source's
`Position` class; its `PositionStr` form is exactly these two chars). -/
structure Position where
  file : Char
  rank : Char
deriving DecidableEq, Repr

def Position.fileIndex (p : Position) : Int := idxIn BOARD_FILES p.file

def Position.rankIndex (p : Position) : Int := idxIn BOARD_RANKS p.rank

def Position.toStr (p : Position) : String := String.mk [p.file, p.rank]

def isBoardRank (c : Char) : Bool := BOARD_RANKS.contains c

def isBoardFile (c : Char) : Bool := BOARD_FILES.contains c

def isPositionStr (s : String) : Bool :=
  match s.toList with
  | [f, r] => isBoardFile f && isBoardRank r
  | _ => false

def prevBoardRank (rank : Char) : Option Char :=
  match BOARD_RANKS.findIdx? (fun x => decide (x = rank)) with
  | some i => if 0 < i then some (BOARD_RANKS.getD (i - 1) '1') else none
  | none => none

def nextBoardRank (rank : Char) : Option Char :=
  match BOARD_RANKS.findIdx? (fun x => decide (x = rank)) with
  | some i => if i < 7 then some (BOARD_RANKS.getD (i + 1) '1') else none
  | none => none

structure CastlingRights where
  whiteKingSide : Bool
  whiteQueenSide : Bool
  blackKingSide : Bool
  blackQueenSide : Bool
deriving DecidableEq, Repr

/-- The source's `BoardMap<T>`: a JS `Map` keyed by square strings,
embedded as an insertion-ordered association list keyed by `Position`
(square strings and `Position` values are in bijection). -/
structure BoardMap (α : Type) where
  entries : List (Position × α)
deriving DecidableEq, Repr

def BoardMap.get {α} (m : BoardMap α) (p : Position) : Option α :=
  (m.entries.find? (fun e => decide (e.1 = p))).map (fun e => e.2)

def BoardMap.has {α} (m : BoardMap α) (p : Position) : Bool :=
  m.entries.any (fun e => decide (e.1 = p))

/-- JS `Map.set`: replace in place when the key exists, append otherwise. -/
def BoardMap.set {α} (m : BoardMap α) (p : Position) (v : α) : BoardMap α :=
  if m.entries.any (fun e => decide (e.1 = p)) then
    ⟨m.entries.map (fun e => if e.1 = p then (p, v) else e)⟩
  else ⟨m.entries ++ [(p, v)]⟩

def BoardMap.del {α} (m : BoardMap α) (p : Position) : BoardMap α :=
  ⟨m.entries.filter (fun e => !decide (e.1 = p))⟩

def BoardMap.size {α} (m : BoardMap α) : Nat := m.entries.length

/-- First entry (in insertion order) holding the value, as the source's
`findPositionFor`. -/
def BoardMap.findPositionFor {α} [DecidableEq α] (m : BoardMap α) (v : α) :
    Option Position :=
  (m.entries.find? (fun e => decide (e.2 = v))).map (fun e => e.1)

/-! ## piece.ts -/

/-- Pieces are single FEN characters in the source (`PieceId`). -/
abbrev PieceId := Char

namespace PieceId

def BLACK_PAWN : Char := 'p'
def WHITE_PAWN : Char := 'P'
def BLACK_KING : Char := 'k'
def WHITE_KING : Char := 'K'
def BLACK_QUEEN : Char := 'q'
def WHITE_QUEEN : Char := 'Q'
def BLACK_ROOK : Char := 'r'
def WHITE_ROOK : Char := 'R'
def BLACK_BISHOP : Char := 'b'
def WHITE_BISHOP : Char := 'B'
def BLACK_KNIGHT : Char := 'n'
def WHITE_KNIGHT : Char := 'N'

def VALID_PIECES : List Char :=
  ['p', 'P', 'k', 'K', 'q', 'Q', 'r', 'R', 'b', 'B', 'n', 'N']

def isPiece (c : Char) : Bool := VALID_PIECES.contains c

def isPawn (c : Char) : Bool := decide (c = 'p' ∨ c = 'P')

/-- Source `isWhite`: membership in the six white piece characters. -/
def isWhite (c : Char) : Bool :=
  decide (c = 'P' ∨ c = 'K' ∨ c = 'Q' ∨ c = 'R' ∨ c = 'B' ∨ c = 'N')

def isKing (c : Char) : Bool := decide (c = 'k' ∨ c = 'K')

/-- `piece === piece.toLowerCase() ? BLACK : WHITE`. -/
def getColor (c : Char) : PlayerColor :=
  if c.toLower = c then .black else .white

end PieceId

/-! ## moves.ts: the Move record and error values -/

inductive CastlingSide where
  | kingSide
  | queenSide
deriving DecidableEq, Repr

/-- The source `Move` interface.  `from` is a Lean keyword, so the field
is named `fromSq`; every other field keeps its source name. -/
structure Move where
  fromSq : Position
  toSq : Position
  algebraic : String
  piece : PieceId
  turn : PlayerColor
  isCapture : Bool
  castling : Option CastlingSide
  isEnPassantCapture : Bool
  promotion : Option PieceId
  comment : Option String
deriving DecidableEq, Repr

inductive MoveErr where
  | notYourTurn
  | captureOwnPiece
  | invalidPieceMove (piece : PieceId)
deriving DecidableEq, Repr

/-- Result of `calculateMove`: the returned move, the returned error
tuple, or a thrown exception (`thrown`). -/
inductive MoveOutcome where
  | ok (m : Move)
  | err (e : MoveErr)
  | thrown (msg : String)
deriving DecidableEq, Repr

def MoveOutcome.isOk : MoveOutcome → Bool
  | .ok _ => true
  | _ => false

def MoveOutcome.getOk : MoveOutcome → Option Move
  | .ok m => some m
  | _ => none

/-! ## algebraic.ts: moveToAlgebraic (needed by calculateMove) -/

/-- Source `moveToAlgebraic`.  Note that for a non-pawn piece the literal
`PieceId` character is appended, i.e. a lowercase letter for Black. -/
def moveToAlgebraic (move : Move) : String :=
  match move.castling with
  | some .kingSide => "O-O"
  | some .queenSide => "O-O-O"
  | none =>
    let isPawn := PieceId.isPawn move.piece
    let s := if !isPawn then String.mk [move.piece] else ""
    let s := s ++ (if move.isCapture && isPawn then String.mk [move.fromSq.file] else "")
    let s := s ++ (if move.isCapture then "x" else "")
    let s := s ++ move.toSq.toStr
    let s := s ++ (match move.promotion with
      | some pr => "=" ++ String.mk [pr.toUpper]
      | none => "")
    s

/-! ## moves.ts: per-piece shape rules -/

/-- Horizontal leg of `getPositionsBetween`: squares strictly between two
indices on a fixed rank, walking by `step` (fuel bounds the loop; 16
dominates every terminating run of the source loop). -/
def betweenWalkH : Nat → Int → Int → Int → Char → List Position
  | 0, _, _, _, _ => []
  | fuel + 1, i, target, step, rank =>
    if i = target then []
    else
      (match fileAt i with
       | some f => [⟨f, rank⟩]
       | none => []) ++ betweenWalkH fuel (i + step) target step rank

def betweenWalkV : Nat → Int → Int → Int → Char → List Position
  | 0, _, _, _, _ => []
  | fuel + 1, i, target, step, file =>
    if i = target then []
    else
      (match rankAt i with
       | some r => [⟨file, r⟩]
       | none => []) ++ betweenWalkV fuel (i + step) target step file

def betweenWalkD : Nat → Int → Int → Int → Int → Int → Int → List Position
  | 0, _, _, _, _, _, _ => []
  | fuel + 1, f, r, tf, tr, df, dr =>
    if f = tf ∨ r = tr then []
    else
      (match fileAt f, rankAt r with
       | some cf, some cr => [⟨cf, cr⟩]
       | _, _ => []) ++ betweenWalkD fuel (f + df) (r + dr) tf tr df dr

def getPositionsBetween (fromSq toSq : Position) : List Position :=
  if fromSq.rankIndex = toSq.rankIndex then
    betweenWalkH 16
      (fromSq.fileIndex + (if fromSq.fileIndex < toSq.fileIndex then 1 else -1))
      toSq.fileIndex
      (if fromSq.fileIndex < toSq.fileIndex then 1 else -1) fromSq.rank
  else if fromSq.fileIndex = toSq.fileIndex then
    betweenWalkV 16
      (fromSq.rankIndex + (if fromSq.rankIndex < toSq.rankIndex then 1 else -1))
      toSq.rankIndex
      (if fromSq.rankIndex < toSq.rankIndex then 1 else -1) fromSq.file
  else if (fromSq.fileIndex - toSq.fileIndex).natAbs =
      (fromSq.rankIndex - toSq.rankIndex).natAbs then
    betweenWalkD 16
      (fromSq.fileIndex + (if fromSq.fileIndex < toSq.fileIndex then 1 else -1))
      (fromSq.rankIndex + (if fromSq.rankIndex < toSq.rankIndex then 1 else -1))
      toSq.fileIndex toSq.rankIndex
      (if fromSq.fileIndex < toSq.fileIndex then 1 else -1)
      (if fromSq.rankIndex < toSq.rankIndex then 1 else -1)
  else []

def isPathClear (fromSq toSq : Position) (board : BoardMap PieceId) : Bool :=
  (getPositionsBetween fromSq toSq).all (fun p => !board.has p)

def isValidPawnMove (fromSq toSq : Position) (piece : PieceId)
    (board : BoardMap PieceId) (enPassantTarget : Option Position) : Bool :=
  if fromSq.file = toSq.file then
    if toSq.rankIndex - fromSq.rankIndex =
        (if PieceId.isWhite piece then (1 : Int) else -1) then
      !board.has toSq
    else if fromSq.rank = (if PieceId.isWhite piece then '2' else '7') ∧
        toSq.rankIndex - fromSq.rankIndex =
          2 * (if PieceId.isWhite piece then (1 : Int) else -1) then
      !board.has toSq && isPathClear fromSq toSq board
    else false
  else if (toSq.fileIndex - fromSq.fileIndex).natAbs = 1 ∧
      toSq.rankIndex - fromSq.rankIndex =
        (if PieceId.isWhite piece then (1 : Int) else -1) then
    board.has toSq ||
      (match enPassantTarget with
       | some ep => decide (ep = toSq)
       | none => false)
  else false

def isValidKnightMove (fromSq toSq : Position) : Bool :=
  let fileDiff := (toSq.fileIndex - fromSq.fileIndex).natAbs
  let rankDiff := (toSq.rankIndex - fromSq.rankIndex).natAbs
  decide ((fileDiff = 2 ∧ rankDiff = 1) ∨ (fileDiff = 1 ∧ rankDiff = 2))

def isValidBishopMove (fromSq toSq : Position) (board : BoardMap PieceId) : Bool :=
  let fileDiff := (toSq.fileIndex - fromSq.fileIndex).natAbs
  let rankDiff := (toSq.rankIndex - fromSq.rankIndex).natAbs
  decide (fileDiff = rankDiff) && isPathClear fromSq toSq board

def isValidRookMove (fromSq toSq : Position) (board : BoardMap PieceId) : Bool :=
  decide (fromSq.file = toSq.file ∨ fromSq.rank = toSq.rank) && isPathClear fromSq toSq board

def isValidQueenMove (fromSq toSq : Position) (board : BoardMap PieceId) : Bool :=
  isValidBishopMove fromSq toSq board || isValidRookMove fromSq toSq board

def isValidKingMove (fromSq toSq : Position) (piece : PieceId)
    (board : BoardMap PieceId) (castling : CastlingRights) :
    Bool × Option CastlingSide :=
  if (toSq.fileIndex - fromSq.fileIndex).natAbs ≤ 1 ∧
      (toSq.rankIndex - fromSq.rankIndex).natAbs ≤ 1 then (true, none)
  else if (toSq.rankIndex - fromSq.rankIndex).natAbs = 0 ∧
      fromSq.rank = (if PieceId.isWhite piece then '1' else '8') ∧
      fromSq.file = 'e' ∧ isPathClear fromSq toSq board then
    if toSq.file = 'g' ∧
        ((PieceId.isWhite piece && castling.whiteKingSide) ||
          (!PieceId.isWhite piece && castling.blackKingSide)) then
      (true, some .kingSide)
    else if toSq.file = 'c' ∧
        ((PieceId.isWhite piece && castling.whiteQueenSide) ||
          (!PieceId.isWhite piece && castling.blackQueenSide)) then
      (true, some .queenSide)
    else (false, none)
  else (false, none)

/-! ## board.ts / moves.ts: the aggregate position record -/

structure BoardInfo where
  pieces : BoardMap PieceId
  turnColor : PlayerColor
  canCastle : CastlingRights
  enPassantTarget : Option Position
  halfMoveClock : Int
  fullMoveNumber : Int
  allowedMoves : BoardMap (List Position)
  moves : List Move
deriving DecidableEq, Repr

def newBoardInfo : BoardInfo :=
  { pieces := ⟨[]⟩
    turnColor := .white
    canCastle := ⟨true, true, true, true⟩
    enPassantTarget := none
    halfMoveClock := 0
    fullMoveNumber := 0
    allowedMoves := ⟨[]⟩
    moves := [] }

/-- The `switch (piece)` block of `calculateMove`: validity flag, castling
side, en-passant-capture flag.  A character that is no piece leaves
`isValid` false, as the switch without a default does. -/
def pieceRuleCheck (piece : PieceId) (fromSq toSq : Position) (board : BoardInfo) :
    Bool × Option CastlingSide × Bool :=
  if piece = 'p' ∨ piece = 'P' then
    let v := isValidPawnMove fromSq toSq piece board.pieces board.enPassantTarget
    (v, none,
      v && (match board.enPassantTarget with
            | some ep => decide (ep = toSq)
            | none => false))
  else if piece = 'n' ∨ piece = 'N' then
    (isValidKnightMove fromSq toSq, none, false)
  else if piece = 'b' ∨ piece = 'B' then
    (isValidBishopMove fromSq toSq board.pieces, none, false)
  else if piece = 'r' ∨ piece = 'R' then
    (isValidRookMove fromSq toSq board.pieces, none, false)
  else if piece = 'q' ∨ piece = 'Q' then
    (isValidQueenMove fromSq toSq board.pieces, none, false)
  else if piece = 'k' ∨ piece = 'K' then
    let r := isValidKingMove fromSq toSq piece board.pieces board.canCastle
    (r.1, r.2, false)
  else (false, none, false)

/-- The allowed-move lookup of `calculateMove`:
`board.allowedMoves.get(from)?.map(toString).includes(to.toString())`
(square strings are in bijection with `Position`, so the string
comparison is `Position` equality). -/
def inAllowed (board : BoardInfo) (fromSq toSq : Position) : Bool :=
  match board.allowedMoves.get fromSq with
  | some l => l.any (fun q => decide (q = toSq))
  | none => false

/-- The `Move` record `calculateMove` returns: built with an empty
`algebraic` field, which is then set from `moveToAlgebraic`. -/
def builtMove (fromSq toSq : Position) (piece : PieceId) (turn : PlayerColor)
    (isCapture : Bool) (castling : Option CastlingSide)
    (isEnPassantCapture : Bool) (promotion : Option PieceId) : Move :=
  { fromSq := fromSq
    toSq := toSq
    algebraic :=
      moveToAlgebraic
        { fromSq := fromSq, toSq := toSq, algebraic := "", piece := piece
          turn := turn, isCapture := isCapture, castling := castling
          isEnPassantCapture := isEnPassantCapture, promotion := promotion
          comment := none }
    piece := piece
    turn := turn
    isCapture := isCapture
    castling := castling
    isEnPassantCapture := isEnPassantCapture
    promotion := promotion
    comment := none }

/-- The auto-promotion computation of `calculateMove`: auto-queen when a
pawn reaches the last rank, overridden by the explicit choice when one
was supplied, absent otherwise. -/
def promotionFor (piece : PieceId) (toSq : Position)
    (promotionPiece : Option PieceId) : Option PieceId :=
  if piece = 'p' ∧ toSq.rank = '1' then
    some (match promotionPiece with | some q => q | none => 'q')
  else if piece = 'P' ∧ toSq.rank = '8' then
    some (match promotionPiece with | some q => q | none => 'Q')
  else none

/-- Source `calculateMove(board, from, to, promotionPiece?, ignoreAllowed)`. -/
def calculateMove (board : BoardInfo) (fromSq toSq : Position)
    (promotionPiece : Option PieceId) (ignoreAllowed : Bool) : MoveOutcome :=
  match board.pieces.get fromSq with
  | none => .thrown ("No piece at position " ++ fromSq.toStr)
  | some piece =>
    if PieceId.getColor piece ≠ board.turnColor then .err .notYourTurn
    else if (match board.pieces.get toSq with
        | some tp => decide (PieceId.getColor piece = PieceId.getColor tp)
        | none => false) then .err .captureOwnPiece
    else if !ignoreAllowed && !inAllowed board fromSq toSq then
      .err (.invalidPieceMove piece)
    else if !(pieceRuleCheck piece fromSq toSq board).1 then
      .err (.invalidPieceMove piece)
    else
      .ok (builtMove fromSq toSq piece (PieceId.getColor piece)
        ((board.pieces.get toSq).isSome || (pieceRuleCheck piece fromSq toSq board).2.2)
        (pieceRuleCheck piece fromSq toSq board).2.1
        (pieceRuleCheck piece fromSq toSq board).2.2
        (promotionFor piece toSq promotionPiece))

/-! ## moves.ts: fillAllowedMoves (legal move filter) -/

/-- All 64 squares in the iteration order of `fillAllowedMoves`
(`BOARD_FILES` outer loop, `BOARD_RANKS` inner loop). -/
def allSquares : List Position :=
  BOARD_FILES.foldr (fun f acc => BOARD_RANKS.map (fun r => ⟨f, r⟩) ++ acc) []

/-- The simulate-and-check step of `fillAllowedMoves` for one candidate
move: clone the pieces, apply the raw relocation (and en-passant
removal / promoted-piece placement), find the mover's king, and scan
every opposing piece for a pseudo-move reaching the king's square.
Returns `true` when the candidate survives (king not found counts as not
surviving, as the source's `continue` does). -/
def kingSafeAfter (board : BoardInfo) (fromSq toSq : Position)
    (piece : PieceId) (mv : Move) : Bool :=
  let temp0 := board.pieces.del fromSq
  let temp1 :=
    if mv.isEnPassantCapture then temp0.del ⟨toSq.file, fromSq.rank⟩ else temp0
  let tempPieces :=
    temp1.set toSq (match mv.promotion with | some q => q | none => piece)
  let kingPiece := if board.turnColor = .white then 'K' else 'k'
  match tempPieces.findPositionFor kingPiece with
  | none => false
  | some kingPos =>
    !tempPieces.entries.any (fun e =>
      decide (PieceId.getColor e.2 ≠ board.turnColor) &&
        (calculateMove
          { board with
              pieces := tempPieces
              turnColor := PieceId.getColor e.2
              allowedMoves := ⟨[]⟩ }
          e.1 kingPos none true).isOk)

/-- One destination test of `fillAllowedMoves`: pseudo-legality via
`calculateMove` with `ignoreAllowed = true` followed by the
simulate-and-check step.  The `thrown` case of `calculateMove` cannot
fire here (the origin square holds a piece by loop construction) and is
mapped to `false`. -/
def destAllowed (board : BoardInfo) (fromSq : Position) (piece : PieceId)
    (toSq : Position) : Bool :=
  match calculateMove board fromSq toSq none true with
  | .ok mv => kingSafeAfter board fromSq toSq piece mv
  | _ => false

/-- One piece of the outer loop of `fillAllowedMoves`: skip opposing
pieces, store the surviving destinations when there are any. -/
def allowedStep (board : BoardInfo) (acc : BoardMap (List Position))
    (e : Position × PieceId) : BoardMap (List Position) :=
  if PieceId.getColor e.2 ≠ board.turnColor then acc
  else if (allSquares.filter (destAllowed board e.1 e.2)).length > 0 then
    acc.set e.1 (allSquares.filter (destAllowed board e.1 e.2))
  else acc

/-- The mapping `fillAllowedMoves` stores: for every friendly piece, the
list of surviving destinations, keyed by origin, entries omitted when the
list is empty. -/
def computeAllowedMoves (board : BoardInfo) : BoardMap (List Position) :=
  board.pieces.entries.foldl (allowedStep board) ⟨[]⟩

/-- Source `fillAllowedMoves`: throws when the mapping was already
computed, otherwise stores `computeAllowedMoves`. -/
def fillAllowedMoves (board : BoardInfo) : Except String BoardInfo :=
  if board.allowedMoves.size > 0 then .error "Allowed moves already calculated"
  else .ok { board with allowedMoves := computeAllowedMoves board }

/-! ## moves.ts: applyMove (board mutator) -/

def updateCastlingRights (castling : CastlingRights) (move : Move) :
    CastlingRights :=
  if move.piece = 'k' then
    { castling with blackKingSide := false, blackQueenSide := false }
  else if move.piece = 'K' then
    { castling with whiteKingSide := false, whiteQueenSide := false }
  else if move.piece = 'r' then
    { castling with
        blackQueenSide :=
          if move.fromSq = ⟨'a', '8'⟩ then false else castling.blackQueenSide
        blackKingSide :=
          if move.fromSq = ⟨'h', '8'⟩ then false else castling.blackKingSide }
  else if move.piece = 'R' then
    { castling with
        whiteQueenSide :=
          if move.fromSq = ⟨'a', '1'⟩ then false else castling.whiteQueenSide
        whiteKingSide :=
          if move.fromSq = ⟨'h', '1'⟩ then false else castling.whiteKingSide }
  else castling

/-- Source `applyCastlingMove`: relocates king and rook and clears both
rights of the moving side (`move.turn`). -/
def applyCastlingMove (newBoard : BoardInfo) (move : Move) : BoardInfo :=
  let isWhiteMove := decide (move.turn = .white)
  match move.castling with
  | some .kingSide =>
    let rank := if isWhiteMove then '1' else '8'
    let king := if isWhiteMove then 'K' else 'k'
    let rook := if isWhiteMove then 'R' else 'r'
    let p := ((newBoard.pieces.del ⟨'e', rank⟩).del ⟨'h', rank⟩)
    let p := (p.set ⟨'g', rank⟩ king).set ⟨'f', rank⟩ rook
    { newBoard with
        pieces := p
        canCastle :=
          if isWhiteMove then
            { newBoard.canCastle with whiteKingSide := false, whiteQueenSide := false }
          else
            { newBoard.canCastle with blackKingSide := false, blackQueenSide := false } }
  | some .queenSide =>
    let rank := if isWhiteMove then '1' else '8'
    let king := if isWhiteMove then 'K' else 'k'
    let rook := if isWhiteMove then 'R' else 'r'
    let p := ((newBoard.pieces.del ⟨'e', rank⟩).del ⟨'a', rank⟩)
    let p := (p.set ⟨'c', rank⟩ king).set ⟨'d', rank⟩ rook
    { newBoard with
        pieces := p
        canCastle :=
          if isWhiteMove then
            { newBoard.canCastle with whiteKingSide := false, whiteQueenSide := false }
          else
            { newBoard.canCastle with blackKingSide := false, blackQueenSide := false } }
  | none => newBoard

/-- The fresh position record `applyMove` first builds (`newBoard` in
the source): turn flipped, clocks bumped, en-passant target cleared,
allowed-move mapping empty, move appended to the history. -/
def preMoveBoard (board : BoardInfo) (move : Move) : BoardInfo :=
  { pieces := board.pieces
    turnColor := if board.turnColor = .white then .black else .white
    canCastle := board.canCastle
    enPassantTarget := none
    halfMoveClock := board.halfMoveClock + 1
    fullMoveNumber :=
      if board.turnColor = .white then board.fullMoveNumber
      else board.fullMoveNumber + 1
    allowedMoves := ⟨[]⟩
    moves := board.moves ++ [move] }

/-- The piece relocation of a non-castling `applyMove`: origin voided,
en-passant victim removed, the moved (or promoted) piece placed. -/
def standardMovePieces (pieces : BoardMap PieceId) (move : Move) :
    BoardMap PieceId :=
  let p1 := pieces.del move.fromSq
  let p2 :=
    if move.isEnPassantCapture then p1.del ⟨move.toSq.file, move.fromSq.rank⟩
    else p1
  match move.promotion with
  | some pr => p2.set move.toSq pr
  | none => p2.set move.toSq move.piece

/-- The en-passant target `applyMove` stores: set only when a pawn moved
two ranks, to the mover's en-passant rank on the origin file. -/
def movedEnPassantTarget (board : BoardInfo) (move : Move) : Option Position :=
  if PieceId.isPawn move.piece &&
      decide ((move.fromSq.rankIndex - move.toSq.rankIndex).natAbs = 2) then
    some ⟨move.fromSq.file, if board.turnColor = .white then '3' else '6'⟩
  else none

/-- Source `applyMove`: flips the turn, bumps the clocks, checks that the
piece at `move.fromSq` matches (throws otherwise), performs the piece
relocation (castling / en passant / promotion), updates castling rights
and the en-passant target, then fills the allowed-move mapping. -/
def applyMove (board : BoardInfo) (move : Move) : Except String BoardInfo :=
  if board.pieces.get move.fromSq ≠ some move.piece then
    .error ("Piece at " ++ move.fromSq.toStr ++ " does not match the move piece")
  else if move.castling.isSome then
    fillAllowedMoves (applyCastlingMove (preMoveBoard board move) move)
  else
    fillAllowedMoves
      { preMoveBoard board move with
          pieces := standardMovePieces board.pieces move
          canCastle := updateCastlingRights board.canCastle move
          halfMoveClock :=
            if PieceId.isPawn move.piece || move.isCapture then 0
            else board.halfMoveClock + 1
          enPassantTarget := movedEnPassantTarget board move }

/-- Folding `applyMove` over a list of moves (replaying a game). -/
def applyMovesList (board : BoardInfo) : List Move → Except String BoardInfo
  | [] => .ok board
  | m :: ms =>
    match applyMove board m with
    | .error e => .error e
    | .ok b' => applyMovesList b' ms

/-! ## fen.ts -/

def INITIAL_FEN : String :=
  "rnbqkbnr/pppppppp/8/8/8/8/PPPPPPPP/RNBQKBNR w KQkq - 0 1"

def isNumberChar (c : Char) : Bool := decide ('0' ≤ c ∧ c ≤ '9')

/-- JS `parseInt(s, 10)`: skip leading whitespace, optional sign, then
the longest digit run; `NaN` (here `none`) when no digit follows. -/
def parseIntJs (s : String) : Option Int :=
  let cs := s.toList.dropWhile isJsWhitespace
  let signed : Bool × List Char :=
    match cs with
    | '-' :: rest => (true, rest)
    | '+' :: rest => (false, rest)
    | _ => (false, cs)
  let digits := signed.2.takeWhile isNumberChar
  if digits.isEmpty then none
  else
    let n : Nat := digits.foldl (fun a c => a * 10 + (c.toNat - 48)) 0
    some (if signed.1 then -(n : Int) else (n : Int))

/-- One rank of the FEN placement loop in `parseFen`: digits advance the
column index, recognized piece letters are stored (errors for an
unrecognized letter or a piece letter beyond the h-file). -/
def parseFenRow (rowIndex : Nat) : List Char → Nat → BoardMap PieceId →
    Except String (BoardMap PieceId)
  | [], _, pieces => .ok pieces
  | c :: rest, colIndex, pieces =>
    if isNumberChar c then
      parseFenRow rowIndex rest (colIndex + (c.toNat - 48)) pieces
    else if !PieceId.isPiece c then
      .error ("Invalid piece ID in FEN string: " ++ String.mk [c])
    else
      match BOARD_FILES.get? colIndex with
      | none => .error "Invalid column index in FEN string"
      | some col =>
        match BOARD_RANKS.get? rowIndex with
        | none => .error "Invalid row index in FEN string"
        | some row =>
          parseFenRow rowIndex rest (colIndex + 1) (pieces.set ⟨col, row⟩ c)

/-- The placement loop of `parseFen`: the source reverses the rank rows
and walks `rowIndex` from 7 down to 0, which processes the original rows
in order, row `k` against rank index `7 − k`; the list below is the rows
zipped with those rank indices. -/
def parseFenRows : List (String × Nat) → BoardMap PieceId →
    Except String (BoardMap PieceId)
  | [], pieces => .ok pieces
  | (row, rowIndex) :: rest, pieces =>
    match parseFenRow rowIndex row.toList 0 pieces with
    | .error e => .error e
    | .ok pieces' => parseFenRows rest pieces'

/-- The six space-separated FEN fields. -/
def parseFenFields (fen : String) : List String := splitOnJs fen ' '

/-- The `/`-separated ranks of the placement field. -/
def placementRows (fen : String) : List String :=
  splitOnJs ((parseFenFields fen).getD 0 "") '/'

/-- The en-passant field of `parseFen`. -/
def parseFenEp (s : String) : Except String (Option Position) :=
  if s ≠ "-" then
    if !isPositionStr s then
      .error "Invalid en passant target position in FEN string"
    else .ok (some ⟨cAt s.toList 0, cAt s.toList 1⟩)
  else .ok none

/-- Source `parseFen`; thrown errors become `Except.error`. -/
def parseFen (fen : String) : Except String BoardInfo :=
  if (parseFenFields fen).length < 1 then
    .error "Invalid FEN string: must contain at least the piece placement"
  else if (placementRows fen).length ≠ 8 then
    .error "Invalid FEN string: must contain exactly 8 rows"
  else
    match parseFenRows ((placementRows fen).zip (List.range 8).reverse) ⟨[]⟩ with
    | .error e => .error e
    | .ok pieces =>
      match parseFenEp ((parseFenFields fen).getD 3 "-") with
      | .error e => .error e
      | .ok enPassantTarget =>
        match parseIntJs ((parseFenFields fen).getD 4 "0") with
        | none => .error "Invalid half move clock in FEN string"
        | some halfMoveClock =>
          if halfMoveClock < 0 then
            .error "Invalid half move clock in FEN string"
          else
            match parseIntJs ((parseFenFields fen).getD 5 "1") with
            | none => .error "Invalid full move number in FEN string"
            | some fullMoveNumber =>
              if fullMoveNumber < 1 then
                .error "Invalid full move number in FEN string"
              else
                fillAllowedMoves
                  { pieces := pieces
                    turnColor :=
                      if (parseFenFields fen).getD 1 "w" = "w" then .white
                      else .black
                    canCastle :=
                      ⟨((parseFenFields fen).getD 2 "-").toList.any
                          (fun c => decide (c = 'K')),
                        ((parseFenFields fen).getD 2 "-").toList.any
                          (fun c => decide (c = 'Q')),
                        ((parseFenFields fen).getD 2 "-").toList.any
                          (fun c => decide (c = 'k')),
                        ((parseFenFields fen).getD 2 "-").toList.any
                          (fun c => decide (c = 'q'))⟩
                    enPassantTarget := enPassantTarget
                    halfMoveClock := halfMoveClock
                    fullMoveNumber := fullMoveNumber
                    allowedMoves := ⟨[]⟩
                    moves := [] }

/-- One placement rank of `boardToFen` (run-length encoding of the empty
squares of a rank, files a to h). -/
def boardToFenRow (pieces : BoardMap PieceId) (rank : Char) : String :=
  let step :=
    BOARD_FILES.foldl
      (fun (acc : String × Nat) col =>
        match pieces.get ⟨col, rank⟩ with
        | some piece =>
          (acc.1 ++ (if acc.2 > 0 then toString acc.2 else "") ++
             String.mk [piece], 0)
        | none => (acc.1, acc.2 + 1))
      ("", 0)
  step.1 ++ (if step.2 > 0 then toString step.2 else "")

/-- Source `boardToFen`.  The side-to-move field is the raw
`PlayerColor` value, i.e. the full word "white" / "black". -/
def boardToFen (fen : BoardInfo) : String :=
  let rows := (BOARD_RANKS.reverse.map (boardToFenRow fen.pieces))
  let placement := String.intercalate "/" rows
  let turn := fen.turnColor.str
  let castling :=
    (if fen.canCastle.whiteKingSide then "K" else "") ++
    (if fen.canCastle.whiteQueenSide then "Q" else "") ++
    (if fen.canCastle.blackKingSide then "k" else "") ++
    (if fen.canCastle.blackQueenSide then "q" else "")
  let castling := if castling = "" then "-" else castling
  let enPassant :=
    match fen.enPassantTarget with
    | some p => p.toStr
    | none => "-"
  placement ++ " " ++ turn ++ " " ++ castling ++ " " ++ enPassant ++ " " ++
    toString fen.halfMoveClock ++ " " ++ toString fen.fullMoveNumber

/-! ## algebraic.ts: parsing -/

/-- The source error family `AlgebraicMoveError`; the source constructor
names InvalidAlgebraicNotation and AmbiguousAlgebraicNotation are
shortened here to `invalidAlgebraicText` and `ambiguousAlgebraicText`. -/
inductive AlgebraicMoveError where
  | notYourTurn
  | captureOwnPiece
  | invalidPieceMove (piece : PieceId)
  | invalidAlgebraicText (algebraic : String)
  | ambiguousAlgebraicText (algebraic : String) (piece : PieceId)
deriving DecidableEq, Repr

def ofMoveErr : MoveErr → AlgebraicMoveError
  | .notYourTurn => .notYourTurn
  | .captureOwnPiece => .captureOwnPiece
  | .invalidPieceMove p => .invalidPieceMove p

/-- Result of the algebraic decoder: returned move, returned error, or a
propagated exception. -/
inductive AlgOutcome where
  | ok (m : Move)
  | err (e : AlgebraicMoveError)
  | thrown (msg : String)
deriving DecidableEq, Repr

def AlgOutcome.isOk : AlgOutcome → Bool
  | .ok _ => true
  | _ => false

def AlgOutcome.getOk : AlgOutcome → Option Move
  | .ok m => some m
  | _ => none

def algebraicPieceCharToPieceId (pieceChar : Char) (isWhite : Bool) : PieceId :=
  if pieceChar = 'N' then (if isWhite then 'N' else 'n')
  else if pieceChar = 'B' then (if isWhite then 'B' else 'b')
  else if pieceChar = 'R' then (if isWhite then 'R' else 'r')
  else if pieceChar = 'Q' then (if isWhite then 'Q' else 'q')
  else if isWhite then 'K' else 'k'

/-- Offset-candidate scan shared by the knight and king origin searches:
for each offset from the destination, keep the square when it is on the
board, passes the disambiguation filters and holds the wanted piece. -/
def offsetCandidates (origin : Position) (board : BoardInfo)
    (offsets : List (Int × Int)) (wanted : PieceId)
    (desiredFile desiredRank : Option Char) : List Position :=
  offsets.foldr
    (fun d acc =>
      let fileIdx := origin.fileIndex + d.1
      let rankIdx := origin.rankIndex + d.2
      if 0 ≤ fileIdx ∧ fileIdx < 8 ∧ 0 ≤ rankIdx ∧ rankIdx < 8 then
        let file := BOARD_FILES.getD fileIdx.toNat 'a'
        let rank := BOARD_RANKS.getD rankIdx.toNat '1'
        if (match desiredFile with
            | some d => decide (file ≠ d)
            | none => false) then acc
        else if (match desiredRank with
            | some d => decide (rank ≠ d)
            | none => false) then acc
        else if board.pieces.get ⟨file, rank⟩ = some wanted then
          ⟨file, rank⟩ :: acc
        else acc
      else acc)
    []

def getPossibleKnightFromPositions (origin : Position) (board : BoardInfo)
    (desiredFile desiredRank : Option Char) : List Position :=
  let knightPiece := if board.turnColor = .white then 'N' else 'n'
  offsetCandidates origin board
    [(2, 1), (1, 2), (-1, 2), (-2, 1), (-2, -1), (-1, -2), (1, -2), (2, -1)]
    knightPiece desiredFile desiredRank

def getPossibleKingFromPositions (origin : Position) (board : BoardInfo)
    (desiredFile desiredRank : Option Char) : List Position :=
  let king := if board.turnColor = .white then 'K' else 'k'
  offsetCandidates origin board
    [(1, 0), (1, 1), (0, 1), (-1, 1), (-1, 0), (-1, -1), (0, -1), (1, -1)]
    king desiredFile desiredRank

/-- One sliding direction of the bishop/rook origin searches.  A
disambiguation mismatch `continue`s past the square without the
piece-blocking check, exactly as the source loop does. -/
def rayScan (board : BoardInfo) (wanted : PieceId)
    (desiredFile desiredRank : Option Char) (df dr : Int) :
    Nat → Int → Int → List Position
  | 0, _, _ => []
  | fuel + 1, fileIdx, rankIdx =>
    if 0 ≤ fileIdx ∧ fileIdx < 8 ∧ 0 ≤ rankIdx ∧ rankIdx < 8 then
      let file := BOARD_FILES.getD fileIdx.toNat 'a'
      let rank := BOARD_RANKS.getD rankIdx.toNat '1'
      if (match desiredFile with
          | some d => decide (file ≠ d)
          | none => false) then
        rayScan board wanted desiredFile desiredRank df dr fuel
          (fileIdx + df) (rankIdx + dr)
      else if (match desiredRank with
          | some d => decide (rank ≠ d)
          | none => false) then
        rayScan board wanted desiredFile desiredRank df dr fuel
          (fileIdx + df) (rankIdx + dr)
      else
        let pieceAtPos := board.pieces.get ⟨file, rank⟩
        let found : List Position :=
          if pieceAtPos = some wanted then [⟨file, rank⟩] else []
        if pieceAtPos.isSome then found
        else
          found ++ rayScan board wanted desiredFile desiredRank df dr fuel
            (fileIdx + df) (rankIdx + dr)
    else []

def getPossibleBishopFromPositions (origin : Position) (board : BoardInfo)
    (desiredFile desiredRank : Option Char) (lookupPieceId : Option PieceId) :
    List Position :=
  let bishop :=
    match lookupPieceId with
    | some p => p
    | none => if board.turnColor = .white then 'B' else 'b'
  ([(1, 1), (1, -1), (-1, 1), (-1, -1)] : List (Int × Int)).foldr
    (fun d acc =>
      rayScan board bishop desiredFile desiredRank d.1 d.2 9
        (origin.fileIndex + d.1) (origin.rankIndex + d.2) ++ acc)
    []

def getPossibleRookFromPositions (origin : Position) (board : BoardInfo)
    (desiredFile desiredRank : Option Char) (lookupPieceId : Option PieceId) :
    List Position :=
  let rook :=
    match lookupPieceId with
    | some p => p
    | none => if board.turnColor = .white then 'R' else 'r'
  ([(1, 0), (-1, 0), (0, 1), (0, -1)] : List (Int × Int)).foldr
    (fun d acc =>
      rayScan board rook desiredFile desiredRank d.1 d.2 9
        (origin.fileIndex + d.1) (origin.rankIndex + d.2) ++ acc)
    []

def getPossibleQueenFromPositions (origin : Position) (board : BoardInfo)
    (desiredFile desiredRank : Option Char) : List Position :=
  let queen := if board.turnColor = .white then 'Q' else 'q'
  getPossibleRookFromPositions origin board desiredFile desiredRank (some queen) ++
    getPossibleBishopFromPositions origin board desiredFile desiredRank (some queen)

def getPossibleMovePositionsByAlgebraic (origin : Position) (board : BoardInfo)
    (pieceChar : Char) (desiredFile desiredRank : Option Char) : List Position :=
  if pieceChar = 'N' then
    getPossibleKnightFromPositions origin board desiredFile desiredRank
  else if pieceChar = 'B' then
    getPossibleBishopFromPositions origin board desiredFile desiredRank none
  else if pieceChar = 'R' then
    getPossibleRookFromPositions origin board desiredFile desiredRank none
  else if pieceChar = 'Q' then
    getPossibleQueenFromPositions origin board desiredFile desiredRank
  else getPossibleKingFromPositions origin board desiredFile desiredRank

/-- The candidate-resolution tail of `tryParseAlgebraicMoveByChar`: more
than one surviving origin is ambiguous, none is an invalid piece move,
and the single survivor goes to `calculateMove` with the legality filter
active, followed by the capture-flag and piece checks. -/
def finishPieceMove (alg : List Char) (board : BoardInfo) (pieceChar : Char)
    (fromFile fromRank : Option Char) (isCapture : Bool) (toSq : Position) :
    Option AlgOutcome :=
  if (getPossibleMovePositionsByAlgebraic toSq board pieceChar fromFile
      fromRank).length > 1 then
    some (.err (.ambiguousAlgebraicText (String.mk alg)
      (algebraicPieceCharToPieceId pieceChar (decide (board.turnColor = .white)))))
  else
    match getPossibleMovePositionsByAlgebraic toSq board pieceChar fromFile
        fromRank with
    | [] => some (.err (.invalidPieceMove
        (algebraicPieceCharToPieceId pieceChar (decide (board.turnColor = .white)))))
    | fromSq :: _ =>
      match calculateMove board fromSq toSq none false with
      | .thrown msg => some (.thrown msg)
      | .err e => some (.err (ofMoveErr e))
      | .ok move =>
        if isCapture && !move.isCapture then
          some (.err (.invalidAlgebraicText (String.mk alg)))
        else if move.piece ≠
            algebraicPieceCharToPieceId pieceChar (decide (board.turnColor = .white)) then
          some (.err (.invalidPieceMove
            (algebraicPieceCharToPieceId pieceChar (decide (board.turnColor = .white)))))
        else some (.ok move)

/-- Source `tryParseAlgebraicMoveByChar` (piece-letter moves, with
optional origin-file/origin-rank disambiguation).  Returns `none` exactly
when the first character is not `pieceChar`. -/
def tryParseAlgebraicMoveByChar (alg : List Char) (board : BoardInfo)
    (pieceChar : Char) : Option AlgOutcome :=
  if cAt alg 0 ≠ pieceChar then none
  else
    let cond1 := isBoardFile (cAt alg 1) &&
      (isBoardFile (cAt alg 2) || isBoardFile (cAt alg 3))
    let fromFile : Option Char := if cond1 then some (cAt alg 1) else none
    let o1 : Nat := if cond1 then 2 else 1
    let cond2 := isBoardRank (cAt alg o1) &&
      (isBoardFile (cAt alg (o1 + 1)) || isBoardFile (cAt alg (o1 + 2)))
    let fromRank : Option Char := if cond2 then some (cAt alg o1) else none
    let o2 : Nat := if cond2 then o1 + 1 else o1
    if pieceChar = 'K' ∧ fromFile.isSome ∧ fromRank.isSome then
      some (.err (.invalidAlgebraicText (String.mk alg)))
    else
      let isCapture := decide (cAt alg o2 = 'x')
      let o3 : Nat := if isCapture then o2 + 1 else o2
      let toFile := cAt alg o3
      let toRank := cAt alg (o3 + 1)
      let o4 : Nat := o3 + 2
      if !(isBoardFile toFile && isBoardRank toRank) then
        some (.err (.invalidAlgebraicText (String.mk alg)))
      else
        let o5 : Nat := if cAt alg o4 = '+' ∨ cAt alg o4 = '#' then o4 + 1 else o4
        if alg.length ≠ o5 then
          some (.err (.invalidAlgebraicText (String.mk alg)))
        else
          finishPieceMove alg board pieceChar fromFile fromRank isCapture
            ⟨toFile, toRank⟩

def isAlgebraicPromotionPieceChar (c : Char) : Bool :=
  decide (c = 'Q' ∨ c = 'R' ∨ c = 'B' ∨ c = 'N')

/-- Source `tryParseAlgebraicPawnMove`.  Note that the final
`move.promotion = promotionPiece` assignment overwrites the calculator's
auto-queen with the parsed promotion (or with nothing). -/
def tryParseAlgebraicPawnMove (alg : List Char) (board : BoardInfo) :
    Option AlgOutcome :=
  if cAt alg 1 = 'x' ∧ !isBoardFile (cAt alg 0) then none
  else
    let fromCaptureFile : Option Char :=
      if cAt alg 1 = 'x' then some (cAt alg 0) else none
    let o0 : Nat := if cAt alg 1 = 'x' then 2 else 0
    let toFile := cAt alg o0
    let toRank := cAt alg (o0 + 1)
    let o1 : Nat := o0 + 2
    if !(isBoardFile toFile && isBoardRank toRank) then none
    else
      let isWhite := decide (board.turnColor = .white)
      if cAt alg o1 = '=' ∧ !isAlgebraicPromotionPieceChar (cAt alg (o1 + 1)) then
        some (.err (.invalidAlgebraicText (String.mk alg)))
      else
        let promotionPiece : Option PieceId :=
          if cAt alg o1 = '=' then
            some (if isWhite then cAt alg (o1 + 1) else (cAt alg (o1 + 1)).toLower)
          else none
        let o2 : Nat := if cAt alg o1 = '=' then o1 + 2 else o1
        let o3 : Nat := if cAt alg o2 = '+' ∨ cAt alg o2 = '#' then o2 + 1 else o2
        if alg.length ≠ o3 then
          some (.err (.invalidAlgebraicText (String.mk alg)))
        else
          let pawn := if isWhite then 'P' else 'p'
          match (if isWhite then prevBoardRank toRank else nextBoardRank toRank) with
          | none => some (.err (.invalidPieceMove pawn))
          | some prevRank =>
            let toSq : Position := ⟨toFile, toRank⟩
            let fromFile := match fromCaptureFile with
              | some f => f
              | none => toFile
            let from0 : Position := ⟨fromFile, prevRank⟩
            let pawnTwoStepRank := if isWhite then '4' else '5'
            let fromRes : Option Position :=
              if board.pieces.get from0 = some pawn then some from0
              else if toSq.rank = pawnTwoStepRank then
                some ⟨fromFile, if isWhite then '2' else '7'⟩
              else none
            match fromRes with
            | none => some (.err (.invalidPieceMove pawn))
            | some fromSq =>
              match calculateMove board fromSq toSq none true with
              | .thrown msg => some (.thrown msg)
              | .err e => some (.err (ofMoveErr e))
              | .ok move =>
                if move.piece ≠ pawn then
                  some (.err (.invalidPieceMove pawn))
                else some (.ok { move with promotion := promotionPiece })

/-- Lifting a `calculateMove` outcome into the algebraic decoder's
result (the `MoveError` subfamily embeds into `AlgebraicMoveError`). -/
def liftCalcOutcome : MoveOutcome → Option AlgOutcome
  | .thrown msg => some (.thrown msg)
  | .err e => some (.err (ofMoveErr e))
  | .ok move => some (.ok move)

/-- Source `tryParseAlgebraicCastlingMove`.  A resolved castling request
goes to `calculateMove` with `ignoreAllowed = true`. -/
def tryParseAlgebraicCastlingMove (alg : List Char) (board : BoardInfo) :
    Option AlgOutcome :=
  if alg = ['O', '-', 'O'] then
    liftCalcOutcome (calculateMove board
      ⟨'e', if board.turnColor = .white then '1' else '8'⟩
      ⟨'g', if board.turnColor = .white then '1' else '8'⟩ none true)
  else if alg.length = 4 ∧ alg.take 3 = ['O', '-', 'O'] then
    if cAt alg 3 ≠ '+' ∧ cAt alg 3 ≠ '#' then
      some (.err (.invalidAlgebraicText (String.mk alg)))
    else
      liftCalcOutcome (calculateMove board
        ⟨'e', if board.turnColor = .white then '1' else '8'⟩
        ⟨'g', if board.turnColor = .white then '1' else '8'⟩ none true)
  else if alg = ['O', '-', 'O', '-', 'O'] then
    liftCalcOutcome (calculateMove board
      ⟨'e', if board.turnColor = .white then '1' else '8'⟩
      ⟨'c', if board.turnColor = .white then '1' else '8'⟩ none true)
  else if alg.length = 6 ∧ alg.take 5 = ['O', '-', 'O', '-', 'O'] then
    if cAt alg 5 ≠ '+' ∧ cAt alg 5 ≠ '#' then
      some (.err (.invalidAlgebraicText (String.mk alg)))
    else
      liftCalcOutcome (calculateMove board
        ⟨'e', if board.turnColor = .white then '1' else '8'⟩
        ⟨'c', if board.turnColor = .white then '1' else '8'⟩ none true)
  else none

/-- Source `calculateMoveFromAlgebraic`: castling, then each piece
letter, then the bare pawn form; the first non-`null` branch decides. -/
def calculateMoveFromAlgebraic (board : BoardInfo) (algebraic : String) :
    AlgOutcome :=
  if algebraic.toList.length < 2 then .err (.invalidAlgebraicText algebraic)
  else
    match tryParseAlgebraicCastlingMove algebraic.toList board with
    | some r => r
    | none =>
      match tryParseAlgebraicMoveByChar algebraic.toList board 'N' with
      | some r => r
      | none =>
        match tryParseAlgebraicMoveByChar algebraic.toList board 'B' with
        | some r => r
        | none =>
          match tryParseAlgebraicMoveByChar algebraic.toList board 'R' with
          | some r => r
          | none =>
            match tryParseAlgebraicMoveByChar algebraic.toList board 'Q' with
            | some r => r
            | none =>
              match tryParseAlgebraicMoveByChar algebraic.toList board 'K' with
              | some r => r
              | none =>
                match tryParseAlgebraicPawnMove algebraic.toList board with
                | some r => r
                | none => .err (.invalidAlgebraicText algebraic)

/-! ## pgn.ts -/

/-- `isWhiteSpace` of pgn.ts (space, newline, carriage return). -/
def isWhiteSpacePgn (c : Char) : Bool :=
  decide (c = ' ' ∨ c = '\n' ∨ c = '\r')

/-- Cursor state of the source `PGNParser` class. -/
structure PGNParser where
  pgn : List Char
  offset : Nat
  line : Nat
  lineOffset : Nat
  tags : List (String × String)
deriving DecidableEq, Repr

def PGNParser.peekChar (st : PGNParser) : Option Char :=
  if st.offset ≥ st.pgn.length then none else some (st.pgn.getD st.offset nulChar)

def PGNParser.consumeChar (st : PGNParser) : Option Char × PGNParser :=
  match st.peekChar with
  | none => (none, st)
  | some c =>
    let st' := if c = '\n' then { st with line := st.line + 1, lineOffset := 0 } else st
    (some c, { st' with offset := st'.offset + 1, lineOffset := st'.lineOffset + 1 })

def PGNParser.hasMoreChars (st : PGNParser) : Bool :=
  decide (st.offset < st.pgn.length)

/-- Line:column locator used in thrown PGN errors (the raw-context peek
of the source locator is omitted; no claim constrains message text). -/
def PGNParser.locationStr (st : PGNParser) : String :=
  toString st.line ++ ":" ++ toString st.lineOffset

def PGNParser.skipWhitespace : Nat → PGNParser → PGNParser
  | 0, st => st
  | fuel + 1, st =>
    match st.peekChar with
    | none => st
    | some c =>
      if isWhiteSpacePgn c then PGNParser.skipWhitespace fuel (st.consumeChar).2
      else st

def PGNParser.consumeUntilWhiteSpace : Nat → PGNParser → List Char →
    Option String × PGNParser
  | 0, st, acc => (if acc.isEmpty then none else some (String.mk acc.reverse), st)
  | fuel + 1, st, acc =>
    match st.peekChar with
    | none => (if acc.isEmpty then none else some (String.mk acc.reverse), st)
    | some c =>
      if isWhiteSpacePgn c then
        (if acc.isEmpty then none else some (String.mk acc.reverse), st)
      else PGNParser.consumeUntilWhiteSpace fuel (st.consumeChar).2 (c :: acc)

def PGNParser.skipToChar (target : Char) : Nat → PGNParser → Bool × PGNParser
  | 0, st => (false, st)
  | fuel + 1, st =>
    match st.consumeChar with
    | (none, st') => (false, st')
    | (some c, st') =>
      if c = target then (true, st')
      else PGNParser.skipToChar target fuel st'

def assocSet (tags : List (String × String)) (k v : String) :
    List (String × String) :=
  if tags.any (fun e => decide (e.1 = k)) then
    tags.map (fun e => if e.1 = k then (k, v) else e)
  else tags ++ [(k, v)]

/-- JS `slice(a, b)` on the parser text. -/
def PGNParser.sliceStr (st : PGNParser) (a b : Nat) : String :=
  String.mk ((st.pgn.drop a).take (b - a))

/-- The tag-pair loop of `parseMetadata`, including its off-by-one slice
arithmetic (the stored tag name drops the name's first character and
picks up the opening quote and the value's first character). -/
def PGNParser.parseMetadataLoop : Nat → PGNParser → PGNParser
  | 0, st => st
  | fuel + 1, st =>
    if st.peekChar = some '[' then
      let big := st.pgn.length + 1
      let st1 := (st.consumeChar).2
      let tagStart := st1.offset
      let st2 := (PGNParser.skipToChar quoteChar big st1).2
      let st3 := (st2.consumeChar).2
      let tagEnd := st3.offset
      let tagName := trimJs (st3.sliceStr (tagStart + 1) tagEnd)
      let valueStart := st3.offset
      let st4 := (PGNParser.skipToChar quoteChar big st3).2
      let valueEnd := st4.offset - 1
      let tagValue := trimJs (st4.sliceStr valueStart valueEnd)
      let st5 := { st4 with tags := assocSet st4.tags tagName tagValue }
      let st6 := (PGNParser.skipToChar ']' big st5).2
      let st7 := PGNParser.skipWhitespace big st6
      PGNParser.parseMetadataLoop fuel st7
    else st

def PGNParser.parseMetadata (st : PGNParser) : PGNParser :=
  let st1 := { st with tags := [] }
  let st2 := PGNParser.skipWhitespace (st1.pgn.length + 1) st1
  PGNParser.parseMetadataLoop (st2.pgn.length + 1) st2

def PGNParser.parseMoveNumberLoop : Nat → PGNParser → List Char →
    Option (List Char) × PGNParser
  | 0, st, acc => (some acc, st)
  | fuel + 1, st, acc =>
    match st.peekChar with
    | none => (some acc, st)
    | some c =>
      if c = '.' then (some acc, (st.consumeChar).2)
      else if !isNumberChar c then (none, st)
      else PGNParser.parseMoveNumberLoop fuel (st.consumeChar).2 (acc ++ [c])

def PGNParser.parseMoveNumber (st : PGNParser) : Option Int × PGNParser :=
  let st1 := PGNParser.skipWhitespace (st.pgn.length + 1) st
  match PGNParser.parseMoveNumberLoop (st1.pgn.length + 1) st1 [] with
  | (none, st') => (none, st')
  | (some numberStr, st') =>
    if numberStr.isEmpty then (none, st')
    else
      match parseIntJs (String.mk numberStr) with
      | none => (none, st')
      | some n => (some n, st')

def PGNParser.maybeParseMoveComment (st : PGNParser) :
    Option String × PGNParser :=
  let big := st.pgn.length + 1
  let st1 := PGNParser.skipWhitespace big st
  if st1.peekChar ≠ some braceOpen then (none, st1)
  else
    let commentStart := st1.offset + 1
    match PGNParser.skipToChar braceClose big st1 with
    | (false, st2) => (none, st2)
    | (true, st2) =>
      let commentEnd := st2.offset - 1
      (some (trimJs (st2.sliceStr commentStart commentEnd)), st2)

/-- Result of the source `parsePieceMove`: a move, a returned algebraic
error, the no-token case, or a propagated exception. -/
inductive PPMRes where
  | okM (m : Move)
  | errA (e : AlgebraicMoveError)
  | noMove
  | thrownE (msg : String)
deriving DecidableEq, Repr

def PGNParser.parsePieceMove (st : PGNParser) (board : BoardInfo) :
    PPMRes × PGNParser :=
  let big := st.pgn.length + 1
  let st1 := PGNParser.skipWhitespace big st
  match PGNParser.consumeUntilWhiteSpace big st1 [] with
  | (none, st2) => (.noMove, st2)
  | (some moveStr, st2) =>
    match calculateMoveFromAlgebraic board moveStr with
    | .err e => (.errA e, st2)
    | .thrown msg => (.thrownE msg, st2)
    | .ok move =>
      let res := st2.maybeParseMoveComment
      (.okM { move with comment := res.1 }, res.2)

inductive CommentMode where
  | line
  | multiline
deriving DecidableEq, Repr

/-- The checks the source `parse` performs after its main loop. -/
def pgnPostChecks (board : BoardInfo) (comment : Option CommentMode)
    (variationLevel : Nat) : Except String BoardInfo :=
  if variationLevel > 0 then
    .error "Unmatched opening parenthesis in PGN string"
  else if comment = some .multiline then
    .error "Unmatched opening bracket in PGN string"
  else .ok board

/-- The main `while` loop of the source `parse`.  Every continuing
iteration consumes at least one character, so fuel `pgn.length + 1`
reproduces the loop exactly. -/
def pgnParseLoop : Nat → PGNParser → BoardInfo → Option CommentMode → Nat →
    Except String BoardInfo
  | 0, _, _, _, _ => .error "PGN parser out of fuel"
  | fuel + 1, st, board, comment, variationLevel =>
    if !st.hasMoreChars then pgnPostChecks board comment variationLevel
    else
      let c := st.pgn.getD st.offset nulChar
      match comment with
      | some cm =>
        let comment' : Option CommentMode :=
          if c = '\n' ∧ cm = .line then none
          else if c = braceClose ∧ cm = .multiline then none
          else comment
        pgnParseLoop fuel (st.consumeChar).2 board comment' variationLevel
      | none =>
        if c = '(' then
          pgnParseLoop fuel (st.consumeChar).2 board none (variationLevel + 1)
        else if variationLevel > 0 ∧ c = ')' then
          pgnParseLoop fuel (st.consumeChar).2 board none (variationLevel - 1)
        else if c = braceOpen then
          pgnParseLoop fuel (st.consumeChar).2 board (some .multiline) variationLevel
        else if c = ';' then
          pgnParseLoop fuel (st.consumeChar).2 board (some .line) variationLevel
        else if c = ')' then
          .error ("Unmatched closing parenthesis in PGN string at " ++ st.locationStr)
        else if c = braceClose then
          .error ("Unmatched closing bracket in PGN string at " ++ st.locationStr)
        else if c = '.' ∨ c = ' ' ∨ c = '\n' ∨ c = '\r' then
          pgnParseLoop fuel (st.consumeChar).2 board none variationLevel
        else
          match st.parseMoveNumber with
          | (none, _) => pgnPostChecks board comment variationLevel
          | (some _, st1) =>
            match st1.parsePieceMove board with
            | (.errA _, st2) =>
              .error ("Failed to parse white move at " ++ st2.locationStr)
            | (.thrownE msg, _) => .error msg
            | (.noMove, st2) =>
              .error ("Failed to parse move at " ++ st2.locationStr)
            | (.okM move, st2) =>
              match applyMove board move with
              | .error e => .error e
              | .ok board1 =>
                match st2.parsePieceMove board1 with
                | (.errA _, st3) =>
                  .error ("Failed to parse black move at " ++ st3.locationStr)
                | (.thrownE msg, _) => .error msg
                | (.noMove, st3) =>
                  let st4 := PGNParser.skipWhitespace (st3.pgn.length + 1) st3
                  if st4.hasMoreChars then
                    .error ("Error at " ++ st4.locationStr ++
                      ": expected black move or end of moves")
                  else pgnPostChecks board1 comment variationLevel
                | (.okM bmove, st3) =>
                  match applyMove board1 bmove with
                  | .error e => .error e
                  | .ok board2 =>
                    pgnParseLoop fuel st3 board2 comment variationLevel

/-- Source `parsePGNMoves` / `PGNParser.parse`; thrown errors become
`Except.error`. -/
def parsePGNMoves (pgn : String) : Except String (List Move) :=
  let st0 : PGNParser := ⟨pgn.toList, 0, 1, 0, []⟩
  let st := st0.parseMetadata
  let fen :=
    match st.tags.find? (fun e => decide (e.1 = "FEN")) with
    | some e => e.2
    | none => INITIAL_FEN
  match parseFen fen with
  | .error e => .error e
  | .ok board =>
    match pgnParseLoop (st.pgn.length + 1) st board none 0 with
    | .error e => .error e
    | .ok finalBoard => .ok finalBoard.moves

/-! ## Helper accessors and concrete positions used by the theorems -/

def exceptIsOk {ε α} : Except ε α → Bool
  | .ok _ => true
  | .error _ => false

def dummyMove : Move :=
  ⟨⟨'a', '1'⟩, ⟨'a', '1'⟩, "", 'P', .white, false, none, false, none, none⟩

def boardOf (fen : String) : BoardInfo :=
  (parseFen fen).toOption.getD newBoardInfo

/-- Total number of legal destination squares in the mapping. -/
def allowedTotal (b : BoardInfo) : Nat :=
  b.allowedMoves.entries.foldl (fun a e => a + e.2.length) 0

/-- Number of legal destination squares whose origin holds a piece
satisfying `pred`. -/
def allowedCountFor (b : BoardInfo) (pred : PieceId → Bool) : Nat :=
  b.allowedMoves.entries.foldl
    (fun a e =>
      match b.pieces.get e.1 with
      | some piece => if pred piece then a + e.2.length else a
      | none => a)
    0

/-- The canonical starting position, decoded and filled. -/
def initialBoard : BoardInfo := boardOf INITIAL_FEN

/-- White: Ke1, Bf1, Rh1; Black: Ka8.  King-side squares between king and
rook are not empty (f1 occupied); castling right set. -/
def c1BoardF1 : BoardInfo := boardOf "k7/8/8/8/8/8/8/4KB1R w K - 0 1"

/-- White: Ke1, Ng1, Rh1; Black: Ka8.  The castling destination g1 holds
a friendly piece; f1 empty; castling right set. -/
def c1BoardG1own : BoardInfo := boardOf "k7/8/8/8/8/8/8/4K1NR w K - 0 1"

/-- White: Ke1, Rh1; Black: Ka8, Ng1.  The castling destination g1 holds
an enemy piece; f1 empty; castling right set. -/
def c1BoardG1enemy : BoardInfo := boardOf "k7/8/8/8/8/8/8/4K1nR w K - 0 1"

/-- White: Ke1, Rh1; Black: Ka8, Re8.  The white king is attacked by the
rook on e8; f1 and g1 empty; castling right set. -/
def c1BoardCheck : BoardInfo := boardOf "k3r3/8/8/8/8/8/8/4K2R w K - 0 1"

/-- White: Ke1, Pd2; Black: Ka8, Ba5.  The d2 pawn is pinned to the king
by the a5 bishop, so it has no legal move. -/
def pinnedBoard : BoardInfo := boardOf "k7/8/8/b7/8/8/3P4/4K3 w - - 0 1"

/-- Black to move; Black: Na8, Kh8; White: Ka1. -/
def blackKnightBoard : BoardInfo := boardOf "n6k/8/8/8/8/8/8/K7 b - - 0 1"

/-- White: Ka1, Nc1, Ne1; Black: Ka8.  Both knights can legally move to
d3. -/
def twoKnightsBoard : BoardInfo := boardOf "k7/8/8/8/8/8/8/K1N1N3 w - - 0 1"

/-- White: Ka1, Pa2; Black: Kh8. -/
def tinyBoard : BoardInfo := boardOf "7k/8/8/8/8/8/P7/K7 w - - 0 1"

/-- White: Ka1, Na2; Black: Kh8. -/
def knightBoardW : BoardInfo := boardOf "7k/8/8/8/8/8/N7/K7 w - - 0 1"

/-- The legal black knight move a8→b6 on `blackKnightBoard`, as built by
the Move Calculator with the legality filter active. -/
def c5Move : Move :=
  (calculateMove blackKnightBoard ⟨'a', '8'⟩ ⟨'b', '6'⟩ none false).getOk.getD
    dummyMove

/-! ## Inversion lemmas on the operations -/

theorem fillAllowedMoves_ok_inv {x b' : BoardInfo}
    (h : fillAllowedMoves x = .ok b') :
    b' = { x with allowedMoves := computeAllowedMoves x } := by
  unfold fillAllowedMoves at h
  split at h
  · exact absurd h (by simp)
  · injection h with h
    exact h.symm

/-- What a successful `calculateMove` guarantees: the origin piece, the
turn check, the shape check, the projections of the returned record, and
(when the filter was active) membership in the allowed-move mapping. -/
theorem calculateMove_ok_inv {b : BoardInfo} {f t : Position}
    {pp : Option PieceId} {ig : Bool} {m : Move}
    (h : calculateMove b f t pp ig = .ok m) :
    ∃ piece, b.pieces.get f = some piece ∧
      PieceId.getColor piece = b.turnColor ∧
      (pieceRuleCheck piece f t b).1 = true ∧
      m.fromSq = f ∧ m.toSq = t ∧ m.piece = piece ∧
      m.turn = b.turnColor ∧
      m.castling = (pieceRuleCheck piece f t b).2.1 ∧
      m.isEnPassantCapture = (pieceRuleCheck piece f t b).2.2 ∧
      (ig = false → inAllowed b f t = true) := by
  unfold calculateMove at h
  cases hget : b.pieces.get f with
  | none => simp only [hget] at h; exact absurd h (by simp)
  | some piece =>
    simp only [hget] at h
    refine ⟨piece, rfl, ?_⟩
    by_cases h1 : PieceId.getColor piece ≠ b.turnColor
    · rw [if_pos h1] at h; exact absurd h (by simp)
    · rw [if_neg h1] at h
      by_cases h2 : (match b.pieces.get t with
          | some tp => decide (PieceId.getColor piece = PieceId.getColor tp)
          | none => false) = true
      · rw [if_pos h2] at h; exact absurd h (by simp)
      · rw [if_neg h2] at h
        by_cases h3 : (!ig && !inAllowed b f t) = true
        · rw [if_pos h3] at h; exact absurd h (by simp)
        · rw [if_neg h3] at h
          by_cases h4 : (!(pieceRuleCheck piece f t b).1) = true
          · rw [if_pos h4] at h; exact absurd h (by simp)
          · rw [if_neg h4] at h
            injection h with h
            subst h
            refine ⟨not_not.mp h1, by simpa using h4, rfl, rfl, rfl,
              not_not.mp h1, rfl, rfl, ?_⟩
            intro hig
            subst hig
            simpa using h3

/-- The castling-rights component of `applyMove`, isolated: the castling
branch clears both rights of `move.turn`, every other move goes through
`updateCastlingRights`. -/
def castleRightsAfter (c : CastlingRights) (m : Move) : CastlingRights :=
  match m.castling with
  | some _ =>
    if m.turn = .white then
      { c with whiteKingSide := false, whiteQueenSide := false }
    else
      { c with blackKingSide := false, blackQueenSide := false }
  | none => updateCastlingRights c m

theorem applyCastlingMove_canCastle (nb : BoardInfo) (m : Move)
    (hc : m.castling.isSome = true) :
    (applyCastlingMove nb m).canCastle =
      if m.turn = .white then
        { nb.canCastle with whiteKingSide := false, whiteQueenSide := false }
      else
        { nb.canCastle with blackKingSide := false, blackQueenSide := false } := by
  unfold applyCastlingMove
  rcases hm : m.castling with _ | side
  · rw [hm] at hc; simp at hc
  · cases side <;> by_cases ht : m.turn = .white <;> simp [hm, ht]

theorem applyMove_ok_canCastle {b : BoardInfo} {m : Move} {b' : BoardInfo}
    (h : applyMove b m = .ok b') :
    b'.canCastle = castleRightsAfter b.canCastle m := by
  unfold applyMove at h
  by_cases h1 : b.pieces.get m.fromSq ≠ some m.piece
  · rw [if_pos h1] at h; exact absurd h (by simp)
  · rw [if_neg h1] at h
    by_cases h2 : m.castling.isSome = true
    · rw [if_pos h2] at h
      have hb := fillAllowedMoves_ok_inv h
      subst hb
      have hcc := applyCastlingMove_canCastle (preMoveBoard b m) m h2
      rcases hm : m.castling with _ | side
      · rw [hm] at h2; simp at h2
      · simp only [castleRightsAfter, hm]
        simpa [preMoveBoard] using hcc
    · rw [if_neg h2] at h
      have hb := fillAllowedMoves_ok_inv h
      subst hb
      rcases hm : m.castling with _ | side
      · simp [castleRightsAfter, hm]
      · rw [hm] at h2; simp at h2

theorem castleRightsAfter_mono (c : CastlingRights) (m : Move) :
    (c.whiteKingSide = false → (castleRightsAfter c m).whiteKingSide = false) ∧
    (c.whiteQueenSide = false → (castleRightsAfter c m).whiteQueenSide = false) ∧
    (c.blackKingSide = false → (castleRightsAfter c m).blackKingSide = false) ∧
    (c.blackQueenSide = false → (castleRightsAfter c m).blackQueenSide = false) := by
  unfold castleRightsAfter updateCastlingRights
  rcases m.castling with _ | side
  · split_ifs <;> simp_all
  · split_ifs <;> simp_all

/-- A move that makes the white king-side castling right permanently
false: a king move, a rook move leaving h1, or a completed white
castle. -/
def clearsWK (m : Move) : Prop :=
  (m.piece = 'K' ∧ m.castling = none) ∨
  (m.piece = 'R' ∧ m.fromSq = ⟨'h', '1'⟩ ∧ m.castling = none) ∨
  (m.castling ≠ none ∧ m.turn = .white)

def clearsWQ (m : Move) : Prop :=
  (m.piece = 'K' ∧ m.castling = none) ∨
  (m.piece = 'R' ∧ m.fromSq = ⟨'a', '1'⟩ ∧ m.castling = none) ∨
  (m.castling ≠ none ∧ m.turn = .white)

def clearsBK (m : Move) : Prop :=
  (m.piece = 'k' ∧ m.castling = none) ∨
  (m.piece = 'r' ∧ m.fromSq = ⟨'h', '8'⟩ ∧ m.castling = none) ∨
  (m.castling ≠ none ∧ m.turn = .black)

def clearsBQ (m : Move) : Prop :=
  (m.piece = 'k' ∧ m.castling = none) ∨
  (m.piece = 'r' ∧ m.fromSq = ⟨'a', '8'⟩ ∧ m.castling = none) ∨
  (m.castling ≠ none ∧ m.turn = .black)

theorem castleRightsAfter_triggers (c : CastlingRights) (m : Move) :
    (clearsWK m → (castleRightsAfter c m).whiteKingSide = false) ∧
    (clearsWQ m → (castleRightsAfter c m).whiteQueenSide = false) ∧
    (clearsBK m → (castleRightsAfter c m).blackKingSide = false) ∧
    (clearsBQ m → (castleRightsAfter c m).blackQueenSide = false) := by
  refine ⟨fun h => ?_, fun h => ?_, fun h => ?_, fun h => ?_⟩ <;>
    unfold castleRightsAfter updateCastlingRights <;>
    [rcases h with ⟨hp, hc⟩ | ⟨hp, hf, hc⟩ | ⟨hc, ht⟩;
     rcases h with ⟨hp, hc⟩ | ⟨hp, hf, hc⟩ | ⟨hc, ht⟩;
     rcases h with ⟨hp, hc⟩ | ⟨hp, hf, hc⟩ | ⟨hc, ht⟩;
     rcases h with ⟨hp, hc⟩ | ⟨hp, hf, hc⟩ | ⟨hc, ht⟩] <;>
    first
      | (rw [hc]; simp [hp, hf]; done)
      | (rw [hc]; simp [hp]; done)
      | (rcases hx : m.castling with _ | s
         · exact absurd hx hc
         · simp [hx, ht])

theorem applyMovesList_ok_mono {b : BoardInfo} {ms : List Move}
    {b' : BoardInfo} (h : applyMovesList b ms = .ok b') :
    (b.canCastle.whiteKingSide = false → b'.canCastle.whiteKingSide = false) ∧
    (b.canCastle.whiteQueenSide = false → b'.canCastle.whiteQueenSide = false) ∧
    (b.canCastle.blackKingSide = false → b'.canCastle.blackKingSide = false) ∧
    (b.canCastle.blackQueenSide = false → b'.canCastle.blackQueenSide = false) := by
  induction ms generalizing b with
  | nil =>
    unfold applyMovesList at h
    injection h with h
    subst h
    exact ⟨id, id, id, id⟩
  | cons m ms ih =>
    unfold applyMovesList at h
    cases hst : applyMove b m with
    | error e => rw [hst] at h; exact absurd h (by simp)
    | ok b1 =>
      rw [hst] at h
      have h1 := applyMove_ok_canCastle hst
      have h2 := ih h
      have mono := castleRightsAfter_mono b.canCastle m
      exact ⟨fun hf => h2.1 (by rw [h1]; exact mono.1 hf),
        fun hf => h2.2.1 (by rw [h1]; exact mono.2.1 hf),
        fun hf => h2.2.2.1 (by rw [h1]; exact mono.2.2.1 hf),
        fun hf => h2.2.2.2 (by rw [h1]; exact mono.2.2.2 hf)⟩

theorem pieceRuleCheck_pawn {piece : PieceId} (hp : piece = 'p' ∨ piece = 'P')
    (f t : Position) (b : BoardInfo) :
    pieceRuleCheck piece f t b =
      (isValidPawnMove f t piece b.pieces b.enPassantTarget, none,
        isValidPawnMove f t piece b.pieces b.enPassantTarget &&
          (match b.enPassantTarget with
           | some ep => decide (ep = t)
           | none => false)) := by
  unfold pieceRuleCheck
  rw [if_pos hp]

/-- A shape-valid pawn move across two ranks is a straight double advance
from the pawn's start rank in the pawn's forward direction. -/
theorem isValidPawnMove_double {f t : Position} {piece : PieceId}
    {pieces : BoardMap PieceId} {ep : Option Position}
    (h : isValidPawnMove f t piece pieces ep = true)
    (hd : (f.rankIndex - t.rankIndex).natAbs = 2) :
    f.file = t.file ∧
    f.rank = (if PieceId.isWhite piece then '2' else '7') ∧
    t.rankIndex - f.rankIndex =
      2 * (if PieceId.isWhite piece then (1 : Int) else -1) := by
  unfold isValidPawnMove at h
  by_cases hf : f.file = t.file
  · rw [if_pos hf] at h
    by_cases h1 : t.rankIndex - f.rankIndex =
        (if PieceId.isWhite piece then (1 : Int) else -1)
    · exfalso
      cases hw : PieceId.isWhite piece <;> rw [hw] at h1 <;> simp at h1 <;> omega
    · rw [if_neg h1] at h
      by_cases h2 : f.rank = (if PieceId.isWhite piece then '2' else '7') ∧
          t.rankIndex - f.rankIndex =
            2 * (if PieceId.isWhite piece then (1 : Int) else -1)
      · exact ⟨hf, h2.1, h2.2⟩
      · rw [if_neg h2] at h
        exact absurd h (by simp)
  · rw [if_neg hf] at h
    by_cases h3 : (t.fileIndex - f.fileIndex).natAbs = 1 ∧
        t.rankIndex - f.rankIndex =
          (if PieceId.isWhite piece then (1 : Int) else -1)
    · exfalso
      rcases h3 with ⟨-, h3⟩
      cases hw : PieceId.isWhite piece <;> rw [hw] at h3 <;> simp at h3 <;> omega
    · rw [if_neg h3] at h
      exact absurd h (by simp)

theorem betweenWalkV_up (c : Char) : betweenWalkV 16 2 3 1 c = [⟨c, '3'⟩] := rfl

theorem betweenWalkV_down (c : Char) :
    betweenWalkV 16 5 4 (-1) c = [⟨c, '6'⟩] := rfl

theorem getPositionsBetween_up {f t : Position} (hfile : f.file = t.file)
    (h1 : f.rankIndex = 1) (h3 : t.rankIndex = 3) :
    getPositionsBetween f t = [⟨f.file, '3'⟩] := by
  have hfe : f.fileIndex = t.fileIndex := by
    simp [Position.fileIndex, hfile]
  unfold getPositionsBetween
  rw [h1, h3, if_neg (by decide), if_pos hfe, if_pos (by decide : (1 : Int) < 3)]
  have : (1 : Int) + 1 = 2 := by decide
  rw [this]
  exact betweenWalkV_up f.file

theorem getPositionsBetween_down {f t : Position} (hfile : f.file = t.file)
    (h6 : f.rankIndex = 6) (h4 : t.rankIndex = 4) :
    getPositionsBetween f t = [⟨f.file, '6'⟩] := by
  have hfe : f.fileIndex = t.fileIndex := by
    simp [Position.fileIndex, hfile]
  unfold getPositionsBetween
  rw [h6, h4, if_neg (by decide), if_pos hfe,
    if_neg (by decide : ¬(6 : Int) < 4)]
  have : (6 : Int) + -1 = 5 := by decide
  rw [this]
  exact betweenWalkV_down f.file

theorem applyCastlingMove_ep (nb : BoardInfo) (m : Move) :
    (applyCastlingMove nb m).enPassantTarget = nb.enPassantTarget := by
  unfold applyCastlingMove
  rcases hm : m.castling with _ | side
  · rfl
  · cases side <;> simp

theorem applyMove_ok_ep {b : BoardInfo} {m : Move} {b' : BoardInfo}
    (h : applyMove b m = .ok b') :
    b'.enPassantTarget =
      if m.castling.isSome then none else movedEnPassantTarget b m := by
  unfold applyMove at h
  by_cases h1 : b.pieces.get m.fromSq ≠ some m.piece
  · rw [if_pos h1] at h; exact absurd h (by simp)
  · rw [if_neg h1] at h
    by_cases h2 : m.castling.isSome = true
    · rw [if_pos h2] at h
      have hb := fillAllowedMoves_ok_inv h
      subst hb
      rw [if_pos h2]
      simp [applyCastlingMove_ep, preMoveBoard]
    · rw [if_neg h2] at h
      have hb := fillAllowedMoves_ok_inv h
      subst hb
      rw [if_neg h2]

/-- Looking up `k'` after the in-place replacement `Map.set` performs
when the key `k` is already present. -/
theorem find_map_set_cases {α} (k k' : Position) (v : α) :
    ∀ (es : List (Position × α)) (w : α),
      ((es.map (fun e => if e.1 = k then (k, v) else e)).find?
        (fun e => decide (e.1 = k'))).map (fun e => e.2) = some w →
      (k' = k ∧ w = v) ∨
        (es.find? (fun e => decide (e.1 = k'))).map (fun e => e.2) = some w := by
  intro es
  induction es with
  | nil => intro w h; simp at h
  | cons e rest ih =>
    intro w h
    rw [List.map_cons] at h
    by_cases hek : e.1 = k
    · rw [if_pos hek] at h
      by_cases hkk : k = k'
      · rw [List.find?_cons_of_pos _ (by simpa using hkk)] at h
        simp at h
        exact Or.inl ⟨hkk.symm, h.symm⟩
      · rw [List.find?_cons_of_neg _ (by simpa using hkk)] at h
        rcases ih w h with hl | hr
        · exact Or.inl hl
        · refine Or.inr ?_
          rw [List.find?_cons_of_neg _ (by simp [hek, hkk])]
          exact hr
    · rw [if_neg hek] at h
      by_cases hek' : e.1 = k'
      · rw [List.find?_cons_of_pos _ (by simpa using hek')] at h
        refine Or.inr ?_
        rw [List.find?_cons_of_pos _ (by simpa using hek')]
        exact h
      · rw [List.find?_cons_of_neg _ (by simpa using hek')] at h
        rcases ih w h with hl | hr
        · exact Or.inl hl
        · refine Or.inr ?_
          rw [List.find?_cons_of_neg _ (by simpa using hek')]
          exact hr

/-- Looking up `k'` after the append `Map.set` performs when the key `k`
is absent. -/
theorem find_append_single_cases {α} (k k' : Position) (v : α) :
    ∀ (es : List (Position × α)) (w : α),
      ((es ++ [(k, v)]).find? (fun e => decide (e.1 = k'))).map
        (fun e => e.2) = some w →
      (k' = k ∧ w = v) ∨
        (es.find? (fun e => decide (e.1 = k'))).map (fun e => e.2) = some w := by
  intro es
  induction es with
  | nil =>
    intro w h
    rw [List.nil_append] at h
    by_cases hkk : k = k'
    · rw [List.find?_cons_of_pos _ (by simpa using hkk)] at h
      simp at h
      exact Or.inl ⟨hkk.symm, h.symm⟩
    · rw [List.find?_cons_of_neg _ (by simpa using hkk)] at h
      simp at h
  | cons e rest ih =>
    intro w h
    rw [List.cons_append] at h
    by_cases hek' : e.1 = k'
    · rw [List.find?_cons_of_pos _ (by simpa using hek')] at h
      refine Or.inr ?_
      rw [List.find?_cons_of_pos _ (by simpa using hek')]
      exact h
    · rw [List.find?_cons_of_neg _ (by simpa using hek')] at h
      rcases ih w h with hl | hr
      · exact Or.inl hl
      · refine Or.inr ?_
        rw [List.find?_cons_of_neg _ (by simpa using hek')]
        exact hr

/-- Reading a key off a `BoardMap.set` result: either it is the freshly
stored binding or it was already present. -/
theorem BoardMap.get_set_cases {α} {m : BoardMap α} {k k' : Position} {v w : α}
    (h : (m.set k v).get k' = some w) :
    (k' = k ∧ w = v) ∨ m.get k' = some w := by
  unfold BoardMap.set at h
  by_cases hmem : m.entries.any (fun e => decide (e.1 = k)) = true
  · rw [if_pos hmem] at h
    exact find_map_set_cases k k' v m.entries w h
  · rw [if_neg hmem] at h
    exact find_append_single_cases k k' v m.entries w h

theorem destAllowed_true {b : BoardInfo} {f : Position} {piece : PieceId}
    {t : Position} (h : destAllowed b f piece t = true) :
    ∃ mv, calculateMove b f t none true = .ok mv ∧
      kingSafeAfter b f t piece mv = true := by
  unfold destAllowed at h
  cases hcm : calculateMove b f t none true with
  | ok mv => rw [hcm] at h; exact ⟨mv, rfl, h⟩
  | err e => rw [hcm] at h; simp at h
  | thrown msg => rw [hcm] at h; simp at h

/-- Every destination stored by the legal move filter passed both the
pseudo-legality check and the simulate-and-check king-safety scan. -/
theorem computeAllowedMoves_mem {b : BoardInfo} {f t : Position}
    {l : List Position} (hget : (computeAllowedMoves b).get f = some l)
    (hmem : t ∈ l) :
    ∃ piece mv, calculateMove b f t none true = .ok mv ∧
      kingSafeAfter b f t piece mv = true := by
  unfold computeAllowedMoves at hget
  suffices hs : ∀ (es : List (Position × PieceId)) (acc : BoardMap (List Position)),
      (∀ f' l', acc.get f' = some l' → ∀ t' ∈ l', ∃ piece mv,
        calculateMove b f' t' none true = .ok mv ∧
          kingSafeAfter b f' t' piece mv = true) →
      ∀ f' l', (es.foldl (allowedStep b) acc).get f' = some l' → ∀ t' ∈ l',
        ∃ piece mv, calculateMove b f' t' none true = .ok mv ∧
          kingSafeAfter b f' t' piece mv = true by
    refine hs b.pieces.entries ⟨[]⟩ ?_ f l hget t hmem
    intro f' l' habs
    simp [BoardMap.get] at habs
  intro es
  induction es with
  | nil => intro acc hacc; exact hacc
  | cons e rest ih =>
    intro acc hacc
    rw [List.foldl_cons]
    refine ih (allowedStep b acc e) ?_
    intro f' l' hget' t' ht'
    unfold allowedStep at hget'
    split_ifs at hget' with hskip hlen
    · exact hacc f' l' hget' t' ht'
    · rcases BoardMap.get_set_cases hget' with ⟨hkey, hval⟩ | hold
      · subst hkey
        subst hval
        have hfilter := List.of_mem_filter ht'
        obtain ⟨mv, hcm, hsafe⟩ := destAllowed_true hfilter
        exact ⟨e.2, mv, hcm, hsafe⟩
      · exact hacc f' l' hold t' ht'
    · exact hacc f' l' hget' t' ht'

theorem finishPieceMove_ok {alg : List Char} {b : BoardInfo} {pc : Char}
    {ff fr : Option Char} {ic : Bool} {t : Position} {m : Move}
    (h : finishPieceMove alg b pc ff fr ic t = some (.ok m)) :
    ∃ f, calculateMove b f t none false = .ok m := by
  unfold finishPieceMove at h
  split_ifs at h with h1
  · simp at h
  · cases hl : getPossibleMovePositionsByAlgebraic t b pc ff fr with
    | nil => rw [hl] at h; simp at h
    | cons f0 rest =>
      simp only [hl] at h
      cases hcm : calculateMove b f0 t none false with
      | thrown msg => simp only [hcm] at h; simp at h
      | err e => simp only [hcm] at h; simp at h
      | ok move =>
        simp only [hcm] at h
        split_ifs at h with h2 h3
        · simp at h
        · simp at h
        · refine ⟨f0, ?_⟩
          simp at h
          rw [← h]
          exact hcm

theorem finishPieceMove_ne_none (alg : List Char) (b : BoardInfo) (pc : Char)
    (ff fr : Option Char) (ic : Bool) (t : Position) :
    finishPieceMove alg b pc ff fr ic t ≠ none := by
  unfold finishPieceMove
  split_ifs with h1
  · simp
  · cases hl : getPossibleMovePositionsByAlgebraic t b pc ff fr with
    | nil => simp [hl]
    | cons f0 rest =>
      simp only [hl]
      cases hcm : calculateMove b f0 t none false with
      | thrown msg => simp [hcm]
      | err e => simp [hcm]
      | ok move =>
        simp only [hcm]
        split_ifs <;> simp

/-- The piece-letter branch `tryParseAlgebraicMoveByChar` returns `null`
exactly when the text does not start with its piece letter. -/
theorem tryParseByChar_none {alg : List Char} (b : BoardInfo) {pc : Char}
    (h : cAt alg 0 ≠ pc) : tryParseAlgebraicMoveByChar alg b pc = none := by
  unfold tryParseAlgebraicMoveByChar
  rw [if_pos h]

theorem tryParseByChar_ne_none {alg : List Char} (b : BoardInfo) {pc : Char}
    (h : cAt alg 0 = pc) : tryParseAlgebraicMoveByChar alg b pc ≠ none := by
  unfold tryParseAlgebraicMoveByChar
  rw [if_neg (not_not_intro h)]
  intro heq
  dsimp only at heq
  split_ifs at heq <;>
    first
      | exact finishPieceMove_ne_none _ _ _ _ _ _ _ heq
      | simp at heq

set_option maxHeartbeats 2000000 in
/-- A piece-letter parse that succeeds got its move from `calculateMove`
with the legality filter active. -/
theorem tryParseByChar_ok {alg : List Char} {b : BoardInfo} {pc : Char}
    {m : Move} (h : tryParseAlgebraicMoveByChar alg b pc = some (.ok m)) :
    ∃ f t, calculateMove b f t none false = .ok m := by
  unfold tryParseAlgebraicMoveByChar at h
  dsimp only at h
  split_ifs at h <;>
    first
      | exact Option.noConfusion h
      | (simp only [Option.some.injEq] at h; exact AlgOutcome.noConfusion h)
      | (obtain ⟨f, hf⟩ := finishPieceMove_ok h; exact ⟨f, _, hf⟩)

theorem take3_first {l : List Char} (h : l.take 3 = ['O', '-', 'O']) :
    cAt l 0 = 'O' := by
  cases l with
  | nil => simp at h
  | cons a r =>
    simp [List.take] at h
    simp [cAt, h.1]

theorem take5_first {l : List Char}
    (h : l.take 5 = ['O', '-', 'O', '-', 'O']) : cAt l 0 = 'O' := by
  cases l with
  | nil => simp at h
  | cons a r =>
    simp [List.take] at h
    simp [cAt, h.1]

/-- The castling branch returns `null` whenever the text does not start
with the letter O. -/
theorem tryParseCastling_none {alg : List Char} (b : BoardInfo)
    (h : cAt alg 0 ≠ 'O') : tryParseAlgebraicCastlingMove alg b = none := by
  have hks : ¬alg = ['O', '-', 'O'] := fun he => h (by rw [he]; rfl)
  have hqs : ¬alg = ['O', '-', 'O', '-', 'O'] := fun he => h (by rw [he]; rfl)
  have ht3 : ¬(alg.length = 4 ∧ alg.take 3 = ['O', '-', 'O']) :=
    fun hc => h (take3_first hc.2)
  have ht5 : ¬(alg.length = 6 ∧ alg.take 5 = ['O', '-', 'O', '-', 'O']) :=
    fun hc => h (take5_first hc.2)
  unfold tryParseAlgebraicCastlingMove
  rw [if_neg hks, if_neg ht3, if_neg hqs, if_neg ht5]

/-! ## Claim theorems -/

/-- C1, counterexample.  On `c1BoardCheck` the White king stands on e1
with the king-side right set and f1, g1 empty, and is presently attacked
(the opposing rook on e8 reaches e1 in exactly the sense of the legal
move filter's scan); yet g1 is in the precomputed legal-destination list
of e1 and `calculateMove` (filter active) accepts e1→g1 as a king-side
castle, contradicting the claim that the request is illegal whenever the
king is attacked. -/
theorem c1_counterexample :
    c1BoardCheck.pieces.get ⟨'e', '1'⟩ = some 'K' ∧
    c1BoardCheck.canCastle.whiteKingSide = true ∧
    c1BoardCheck.pieces.get ⟨'f', '1'⟩ = none ∧
    c1BoardCheck.pieces.get ⟨'g', '1'⟩ = none ∧
    (calculateMove { c1BoardCheck with turnColor := .black, allowedMoves := ⟨[]⟩ }
        ⟨'e', '8'⟩ ⟨'e', '1'⟩ none true).isOk = true ∧
    inAllowed c1BoardCheck ⟨'e', '1'⟩ ⟨'g', '1'⟩ = true ∧
    (calculateMove c1BoardCheck ⟨'e', '1'⟩ ⟨'g', '1'⟩ none false).getOk.map
      Move.castling = some (some .kingSide) :=
  ⟨rfl, rfl, rfl, rfl, rfl, rfl, rfl⟩

/-- C1, amended.  With the filter active the castling request e1→g1 is
rejected with `InvalidPieceMove` when f1 is occupied; when g1 holds a
friendly piece it is rejected with `CaptureOwnPiece` (not
`InvalidPieceMove`); when g1 holds an enemy piece the castle is accepted
as a capture; and a presently attacked king may castle, because only the
king's post-move square is checked by the filter. -/
theorem c1_amended_thm :
    calculateMove c1BoardF1 ⟨'e', '1'⟩ ⟨'g', '1'⟩ none false =
      .err (.invalidPieceMove 'K') ∧
    calculateMove c1BoardG1own ⟨'e', '1'⟩ ⟨'g', '1'⟩ none false =
      .err .captureOwnPiece ∧
    (calculateMove c1BoardG1enemy ⟨'e', '1'⟩ ⟨'g', '1'⟩ none false).getOk.map
      (fun m => (m.castling, m.isCapture)) = some (some .kingSide, true) ∧
    (calculateMove { c1BoardCheck with turnColor := .black, allowedMoves := ⟨[]⟩ }
        ⟨'e', '8'⟩ ⟨'e', '1'⟩ none true).isOk = true ∧
    (calculateMove c1BoardCheck ⟨'e', '1'⟩ ⟨'g', '1'⟩ none false).isOk = true :=
  ⟨rfl, rfl, rfl, rfl, rfl⟩

/-- C2, counterexample.  On `pinnedBoard` the algebraic text "d3"
resolves (through the pawn path, which passes `ignoreAllowed = true`) to
the move d2→d3 of the pinned pawn, although d2 has no entry at all in
the precomputed legal-destination mapping and the simulate-and-check
test rejects d2→d3 (it leaves the white king attacked). -/
theorem c2_counterexample :
    (calculateMoveFromAlgebraic pinnedBoard "d3").getOk.map
      (fun m => (m.fromSq, m.toSq)) = some (⟨'d', '2'⟩, ⟨'d', '3'⟩) ∧
    pinnedBoard.allowedMoves.get ⟨'d', '2'⟩ = none ∧
    inAllowed pinnedBoard ⟨'d', '2'⟩ ⟨'d', '3'⟩ = false ∧
    destAllowed pinnedBoard ⟨'d', '2'⟩ 'P' ⟨'d', '3'⟩ = false :=
  ⟨rfl, rfl, rfl, rfl⟩

/-- C2, amended.  A piece-letter move (N, B, R, Q, K) returned by
`calculateMoveFromAlgebraic` was resolved through `calculateMove` with
the legality filter active, so its destination is in the precomputed
legal-destination list for its origin; and every destination in the
mapping computed by the legal move filter passed the simulate-and-check
scan, i.e. does not leave the mover's own king attacked.  (Pawn and
castling texts bypass the filter, see the counterexample.) -/
theorem c2_amended :
    (∀ (b : BoardInfo) (s : String) (c : Char) (m : Move),
        c = 'N' ∨ c = 'B' ∨ c = 'R' ∨ c = 'Q' ∨ c = 'K' →
        cAt s.toList 0 = c →
        calculateMoveFromAlgebraic b s = .ok m →
        inAllowed b m.fromSq m.toSq = true) ∧
    (∀ (b : BoardInfo) (f t : Position) (l : List Position),
        (computeAllowedMoves b).get f = some l → t ∈ l →
        ∃ piece mv, calculateMove b f t none true = .ok mv ∧
          kingSafeAfter b f t piece mv = true) := by
  refine ⟨fun b s c m hc h0 h => ?_,
    fun b f t l hg hm => computeAllowedMoves_mem hg hm⟩
  have hfin : ∀ {pc : Char},
      tryParseAlgebraicMoveByChar s.toList b pc = some (.ok m) →
      inAllowed b m.fromSq m.toSq = true := by
    intro pc htr
    obtain ⟨f, t, hcm⟩ := tryParseByChar_ok htr
    obtain ⟨piece, -, -, -, hfrom, hto, -, -, -, -, hallow⟩ :=
      calculateMove_ok_inv hcm
    rw [hfrom, hto]
    exact hallow rfl
  unfold calculateMoveFromAlgebraic at h
  by_cases hlen : s.toList.length < 2
  · rw [if_pos hlen] at h
    exact absurd h (by simp)
  · rw [if_neg hlen] at h
    have hO : cAt s.toList 0 ≠ 'O' := by
      rw [h0]; rcases hc with rfl | rfl | rfl | rfl | rfl <;> decide
    rw [tryParseCastling_none b hO] at h
    rcases hc with rfl | rfl | rfl | rfl | rfl
    · cases htr : tryParseAlgebraicMoveByChar s.toList b 'N' with
      | none => exact absurd htr (tryParseByChar_ne_none b h0)
      | some r =>
        simp only [htr] at h
        subst h
        exact hfin htr
    · rw [tryParseByChar_none b (show cAt s.toList 0 ≠ 'N' by rw [h0]; decide)]
        at h
      cases htr : tryParseAlgebraicMoveByChar s.toList b 'B' with
      | none => exact absurd htr (tryParseByChar_ne_none b h0)
      | some r =>
        simp only [htr] at h
        subst h
        exact hfin htr
    · rw [tryParseByChar_none b (show cAt s.toList 0 ≠ 'N' by rw [h0]; decide),
        tryParseByChar_none b (show cAt s.toList 0 ≠ 'B' by rw [h0]; decide)]
        at h
      cases htr : tryParseAlgebraicMoveByChar s.toList b 'R' with
      | none => exact absurd htr (tryParseByChar_ne_none b h0)
      | some r =>
        simp only [htr] at h
        subst h
        exact hfin htr
    · rw [tryParseByChar_none b (show cAt s.toList 0 ≠ 'N' by rw [h0]; decide),
        tryParseByChar_none b (show cAt s.toList 0 ≠ 'B' by rw [h0]; decide),
        tryParseByChar_none b (show cAt s.toList 0 ≠ 'R' by rw [h0]; decide)]
        at h
      cases htr : tryParseAlgebraicMoveByChar s.toList b 'Q' with
      | none => exact absurd htr (tryParseByChar_ne_none b h0)
      | some r =>
        simp only [htr] at h
        subst h
        exact hfin htr
    · rw [tryParseByChar_none b (show cAt s.toList 0 ≠ 'N' by rw [h0]; decide),
        tryParseByChar_none b (show cAt s.toList 0 ≠ 'B' by rw [h0]; decide),
        tryParseByChar_none b (show cAt s.toList 0 ≠ 'R' by rw [h0]; decide),
        tryParseByChar_none b (show cAt s.toList 0 ≠ 'Q' by rw [h0]; decide)]
        at h
      cases htr : tryParseAlgebraicMoveByChar s.toList b 'K' with
      | none => exact absurd htr (tryParseByChar_ne_none b h0)
      | some r =>
        simp only [htr] at h
        subst h
        exact hfin htr

/-- The knight move resolved from "Nc3" on `knightBoardW`. -/
def knightAlgMove : Move :=
  (calculateMoveFromAlgebraic knightBoardW "Nc3").getOk.getD dummyMove

def knightAllowedList : List Position :=
  ((computeAllowedMoves knightBoardW).get ⟨'a', '2'⟩).getD []

/-- Witness for C2 at a concrete position: "Nc3" resolves with the
filter active and its destination is in the allowed mapping; and the
stored destination c3 of the a2 knight passes the king-safety scan. -/
theorem c2_amended_witness :
    inAllowed knightBoardW knightAlgMove.fromSq knightAlgMove.toSq = true ∧
    (∃ piece mv,
      calculateMove knightBoardW ⟨'a', '2'⟩ ⟨'c', '3'⟩ none true = .ok mv ∧
        kingSafeAfter knightBoardW ⟨'a', '2'⟩ ⟨'c', '3'⟩ piece mv = true) :=
  ⟨c2_amended.1 knightBoardW "Nc3" 'N' knightAlgMove (Or.inl rfl) (by rfl)
      (by rfl),
   c2_amended.2 knightBoardW ⟨'a', '2'⟩ ⟨'c', '3'⟩ knightAllowedList (by rfl)
      (by decide)⟩

/-- C3: evaluation of the PGN parser at the failing input.  On
`"( 1. e4 )"` the parser does not skip the parenthesized tokens: it
reads "1." as a move number inside the variation, applies e4, then fails
on `")"` as a black move and throws; deleting the variation leaves the
empty movetext, which parses to the empty move list. -/
theorem c3_code_bug_check :
    exceptIsOk (parsePGNMoves "( 1. e4 )") = false ∧
    parsePGNMoves "" = .ok [] :=
  ⟨rfl, rfl⟩

theorem parseFenRow_ok_chars {rowIndex : Nat} :
    ∀ (cs : List Char) (colIndex : Nat) (ps ps' : BoardMap PieceId),
      parseFenRow rowIndex cs colIndex ps = .ok ps' →
      ∀ c ∈ cs, isNumberChar c = true ∨ PieceId.isPiece c = true := by
  intro cs
  induction cs with
  | nil => intro _ _ _ _ c hc; simp at hc
  | cons a rest ih =>
    intro colIndex ps ps' h c hc
    unfold parseFenRow at h
    by_cases h1 : isNumberChar a = true
    · rw [if_pos h1] at h
      rcases List.mem_cons.mp hc with rfl | hcr
      · exact Or.inl h1
      · exact ih _ _ _ h c hcr
    · rw [if_neg h1] at h
      by_cases h2 : (!PieceId.isPiece a) = true
      · rw [if_pos h2] at h
        exact absurd h (by simp)
      · rw [if_neg h2] at h
        have hpiece : PieceId.isPiece a = true := by simpa using h2
        rcases List.mem_cons.mp hc with rfl | hcr
        · exact Or.inr hpiece
        · cases hcol : BOARD_FILES.get? colIndex with
          | none => rw [hcol] at h; simp at h
          | some col =>
            rw [hcol] at h
            cases hrow : BOARD_RANKS.get? rowIndex with
            | none => rw [hrow] at h; simp at h
            | some row =>
              rw [hrow] at h
              exact ih _ _ _ h c hcr

theorem parseFenRows_ok_chars :
    ∀ (rows : List (String × Nat)) (ps ps' : BoardMap PieceId),
      parseFenRows rows ps = .ok ps' →
      ∀ r ∈ rows, ∀ c ∈ r.1.toList,
        isNumberChar c = true ∨ PieceId.isPiece c = true := by
  intro rows
  induction rows with
  | nil => intro _ _ _ r hr; simp at hr
  | cons p rest ih =>
    intro ps ps' h r hr
    obtain ⟨row, rowIndex⟩ := p
    unfold parseFenRows at h
    cases hrow : parseFenRow rowIndex row.toList 0 ps with
    | error e => rw [hrow] at h; simp at h
    | ok ps1 =>
      rw [hrow] at h
      rcases List.mem_cons.mp hr with rfl | hrr
      · exact parseFenRow_ok_chars row.toList 0 ps ps1 hrow
      · exact ih ps1 ps' h r hrr

theorem mem_zip_left {α β : Type} :
    ∀ {l1 : List α} {l2 : List β}, l1.length = l2.length →
      ∀ a ∈ l1, ∃ x, (a, x) ∈ l1.zip l2 := by
  intro l1
  induction l1 with
  | nil => intro l2 h a ha; simp at ha
  | cons y r ih =>
    intro l2 h a ha
    cases l2 with
    | nil => simp at h
    | cons z r2 =>
      rcases List.mem_cons.mp ha with rfl | har
      · exact ⟨z, by simp⟩
      · obtain ⟨x, hx⟩ := ih (by simpa using h) a har
        exact ⟨x, by simp [hx]⟩

/-- C4, counterexample.  The placement field `8/8/8/8/8/8/8/7` has a
rank whose run lengths sum to 7 ≠ 8, yet `parseFen` returns a Position
(with an empty piece map). -/
theorem c4_counterexample :
    exceptIsOk (parseFen "8/8/8/8/8/8/8/7 w - - 0 1") = true ∧
    (boardOf "8/8/8/8/8/8/8/7 w - - 0 1").pieces.entries = [] :=
  ⟨rfl, rfl⟩

/-- C4, amended.  `parseFen` fails for every placement field containing
an unrecognized piece letter (every character of every rank of a
successfully parsed placement is a digit or a recognized piece letter);
but it does not reject every rank whose run lengths sum to a number
other than 8: an overflow past the h-file fails only when a piece letter
lands there, while a rank summing to less than 8 is accepted. -/
theorem c4_amended :
    (∀ (fen : String) (b : BoardInfo), parseFen fen = .ok b →
        ∀ row ∈ placementRows fen, ∀ c ∈ row.toList,
          isNumberChar c = true ∨ PieceId.isPiece c = true) ∧
    exceptIsOk (parseFen "8p/8/8/8/8/8/8/8 w - - 0 1") = false ∧
    exceptIsOk (parseFen "8/8/8/8/8/8/8/7 w - - 0 1") = true := by
  refine ⟨fun fen b h row hrow c hc => ?_, rfl, rfl⟩
  unfold parseFen at h
  by_cases h1 : (parseFenFields fen).length < 1
  · rw [if_pos h1] at h
    exact absurd h (by simp)
  · rw [if_neg h1] at h
    by_cases h2 : (placementRows fen).length ≠ 8
    · rw [if_pos h2] at h
      exact absurd h (by simp)
    · rw [if_neg h2] at h
      cases hrows : parseFenRows
          ((placementRows fen).zip (List.range 8).reverse) ⟨[]⟩ with
      | error e => rw [hrows] at h; exact absurd h (by simp)
      | ok pieces =>
        have h8 : (placementRows fen).length = 8 := not_ne_iff.mp h2
        have hlen : (placementRows fen).length =
            ((List.range 8).reverse).length := by
          rw [h8]; simp
        obtain ⟨idx, hidx⟩ := mem_zip_left hlen row hrow
        exact parseFenRows_ok_chars _ _ _ hrows (row, idx) hidx c hc

/-- Witness for C4's universal part: the all-empty placement parses, and
its rank characters are digits or piece letters. -/
theorem c4_amended_witness :
    isNumberChar '8' = true ∨ PieceId.isPiece '8' = true :=
  c4_amended.1 "8/8/8/8/8/8/8/8 w - - 0 1"
    (boardOf "8/8/8/8/8/8/8/8 w - - 0 1") (by rfl) "8" (by decide) '8'
    (by decide)

/-- C5: evaluation at the failing input.  The legal black knight move
a8→b6 renders as "nb6" (the raw lowercase `PieceId` character), and the
algebraic decoder, which recognizes only the uppercase piece letters,
rejects that very text with `InvalidAlgebraicNotation` — the round-trip
of the claim fails for every black piece move. -/
theorem c5_code_bug_check :
    calculateMove blackKnightBoard ⟨'a', '8'⟩ ⟨'b', '6'⟩ none false =
      .ok c5Move ∧
    moveToAlgebraic c5Move = "nb6" ∧
    c5Move.algebraic = "nb6" ∧
    calculateMoveFromAlgebraic blackKnightBoard "nb6" =
      .err (.invalidAlgebraicText "nb6") :=
  ⟨rfl, rfl, rfl, rfl⟩

/-- C6: evaluation at the failing input.  `boardToFen` writes the
side-to-move field as the raw `PlayerColor` string "white", but
`parseFen` compares the field against "w", so the round trip of a
white-to-move position yields a black-to-move position. -/
theorem c6_code_bug_check :
    tinyBoard.turnColor = .white ∧
    boardToFen tinyBoard = "7k/8/8/8/8/8/P7/K7 white - - 0 1" ∧
    exceptIsOk (parseFen (boardToFen tinyBoard)) = true ∧
    (boardOf (boardToFen tinyBoard)).turnColor = .black :=
  ⟨rfl, rfl, rfl, rfl⟩

/-- C7.  Castling rights are monotonically non-increasing: a right that
is false stays false across one `applyMove` and across any sequence of
`applyMove`s; and a move of the king, of a rook from its original
square, or a completed castle makes the corresponding right(s) false in
the resulting position and in every position reachable from it. -/
theorem c7_castling_rights_monotone :
    (∀ (b : BoardInfo) (m : Move) (b' : BoardInfo), applyMove b m = .ok b' →
      (b.canCastle.whiteKingSide = false → b'.canCastle.whiteKingSide = false) ∧
      (b.canCastle.whiteQueenSide = false → b'.canCastle.whiteQueenSide = false) ∧
      (b.canCastle.blackKingSide = false → b'.canCastle.blackKingSide = false) ∧
      (b.canCastle.blackQueenSide = false → b'.canCastle.blackQueenSide = false)) ∧
    (∀ (b : BoardInfo) (ms : List Move) (b' : BoardInfo),
      applyMovesList b ms = .ok b' →
      (b.canCastle.whiteKingSide = false → b'.canCastle.whiteKingSide = false) ∧
      (b.canCastle.whiteQueenSide = false → b'.canCastle.whiteQueenSide = false) ∧
      (b.canCastle.blackKingSide = false → b'.canCastle.blackKingSide = false) ∧
      (b.canCastle.blackQueenSide = false → b'.canCastle.blackQueenSide = false)) ∧
    (∀ (b : BoardInfo) (m : Move) (b' : BoardInfo) (ms : List Move)
      (b'' : BoardInfo),
      applyMove b m = .ok b' → applyMovesList b' ms = .ok b'' →
      (clearsWK m → b''.canCastle.whiteKingSide = false) ∧
      (clearsWQ m → b''.canCastle.whiteQueenSide = false) ∧
      (clearsBK m → b''.canCastle.blackKingSide = false) ∧
      (clearsBQ m → b''.canCastle.blackQueenSide = false)) := by
  refine ⟨fun b m b' h => ?_, fun b ms b' h => applyMovesList_ok_mono h,
    fun b m b' ms b'' h hs => ?_⟩
  · have h1 := applyMove_ok_canCastle h
    have mono := castleRightsAfter_mono b.canCastle m
    exact ⟨fun hf => by rw [h1]; exact mono.1 hf,
      fun hf => by rw [h1]; exact mono.2.1 hf,
      fun hf => by rw [h1]; exact mono.2.2.1 hf,
      fun hf => by rw [h1]; exact mono.2.2.2 hf⟩
  · have h1 := applyMove_ok_canCastle h
    have trig := castleRightsAfter_triggers b.canCastle m
    have seq := applyMovesList_ok_mono hs
    exact ⟨fun hm => seq.1 (by rw [h1]; exact trig.1 hm),
      fun hm => seq.2.1 (by rw [h1]; exact trig.2.1 hm),
      fun hm => seq.2.2.1 (by rw [h1]; exact trig.2.2.1 hm),
      fun hm => seq.2.2.2 (by rw [h1]; exact trig.2.2.2 hm)⟩

/-- The king move a1→b2 on `tinyBoard`. -/
def tinyKingMove : Move :=
  (calculateMove tinyBoard ⟨'a', '1'⟩ ⟨'b', '2'⟩ none false).getOk.getD dummyMove

/-- The pawn move a2→a3 on `tinyBoard`. -/
def tinyPawnMove : Move :=
  (calculateMove tinyBoard ⟨'a', '2'⟩ ⟨'a', '3'⟩ none false).getOk.getD dummyMove

def tinyAfterKing : BoardInfo :=
  (applyMove tinyBoard tinyKingMove).toOption.getD newBoardInfo

def tinyAfterPawn : BoardInfo :=
  (applyMove tinyBoard tinyPawnMove).toOption.getD newBoardInfo

/-- Witness for C7 at a concrete position: rights already false stay
false after a pawn move, and a king move clears both rights of its side
in the next position and in every later one (here: the same position,
empty continuation). -/
theorem c7_castling_rights_monotone_witness :
    tinyAfterPawn.canCastle.whiteKingSide = false ∧
    tinyAfterKing.canCastle.whiteKingSide = false ∧
    tinyAfterKing.canCastle.whiteQueenSide = false :=
  ⟨(c7_castling_rights_monotone.1 tinyBoard tinyPawnMove tinyAfterPawn
      (by rfl)).1 (by rfl),
   (c7_castling_rights_monotone.2.2 tinyBoard tinyKingMove tinyAfterKing []
      tinyAfterKing (by rfl) (by rfl)).1 (Or.inl ⟨by rfl, by rfl⟩),
   (c7_castling_rights_monotone.2.2 tinyBoard tinyKingMove tinyAfterKing []
      tinyAfterKing (by rfl) (by rfl)).2.1 (Or.inl ⟨by rfl, by rfl⟩)⟩

/-- C8.  For a Move validated by the Move Calculator and applied by the
Board Mutator, the resulting position's en-passant target is non-null
exactly when the move was a pawn advance of two ranks, and in that case
it is the square the pawn passed over (the unique square strictly
between origin and destination). -/
theorem c8_en_passant_window :
    ∀ (b : BoardInfo) (f t : Position) (pp : Option PieceId) (ig : Bool)
      (m : Move) (b' : BoardInfo),
      calculateMove b f t pp ig = .ok m →
      applyMove b m = .ok b' →
      ((b'.enPassantTarget ≠ none ↔
          PieceId.isPawn m.piece = true ∧
            (m.fromSq.rankIndex - m.toSq.rankIndex).natAbs = 2) ∧
       (PieceId.isPawn m.piece = true →
        (m.fromSq.rankIndex - m.toSq.rankIndex).natAbs = 2 →
        ∃ p, b'.enPassantTarget = some p ∧
          getPositionsBetween m.fromSq m.toSq = [p])) := by
  intro b f t pp ig m b' hc ha
  obtain ⟨piece, hget, hcol, hshape, hfrom, hto, hpiece, hturn, hcast, hiep, -⟩ :=
    calculateMove_ok_inv hc
  have hep := applyMove_ok_ep ha
  have hpawnCast : PieceId.isPawn m.piece = true → m.castling = none := by
    intro hp
    have hp' : piece = 'p' ∨ piece = 'P' := by
      rw [hpiece] at hp
      simpa [PieceId.isPawn] using hp
    rw [hcast, pieceRuleCheck_pawn hp']
  constructor
  · by_cases hcs : m.castling.isSome = true
    · rw [hep, if_pos hcs]
      constructor
      · intro hne; exact absurd rfl hne
      · rintro ⟨hp, -⟩
        have hn := hpawnCast hp
        rw [hn] at hcs
        simp at hcs
    · rw [hep, if_neg hcs]
      unfold movedEnPassantTarget
      by_cases hcond : (PieceId.isPawn m.piece &&
          decide ((m.fromSq.rankIndex - m.toSq.rankIndex).natAbs = 2)) = true
      · rw [if_pos hcond]
        simp only [Bool.and_eq_true, decide_eq_true_eq] at hcond
        exact ⟨fun _ => hcond, fun _ => by simp⟩
      · rw [if_neg hcond]
        simp only [Bool.and_eq_true, decide_eq_true_eq, not_and] at hcond
        exact ⟨fun hne => absurd rfl hne, fun ⟨hp, hd⟩ => absurd hd (hcond hp)⟩
  · intro hp hd
    have hcastn := hpawnCast hp
    have hcs : m.castling.isSome = false := by rw [hcastn]; rfl
    rw [hep, if_neg (by simp [hcs])]
    unfold movedEnPassantTarget
    rw [if_pos (by simp [hp, hd])]
    refine ⟨_, rfl, ?_⟩
    have hp' : piece = 'p' ∨ piece = 'P' := by
      rw [hpiece] at hp
      simpa [PieceId.isPawn] using hp
    have hvalid : isValidPawnMove f t piece b.pieces b.enPassantTarget = true := by
      have hs := hshape
      rw [pieceRuleCheck_pawn hp'] at hs
      exact hs
    have hd' : (f.rankIndex - t.rankIndex).natAbs = 2 := by
      rw [← hfrom, ← hto]; exact hd
    obtain ⟨hfile, hrank, hdelta⟩ := isValidPawnMove_double hvalid hd'
    rw [hfrom, hto]
    rcases hp' with hpb | hpw
    · have hw : PieceId.isWhite piece = false := by rw [hpb]; rfl
      rw [hw] at hrank hdelta
      simp at hrank hdelta
      have hfr : f.rankIndex = 6 := by
        rw [Position.rankIndex, hrank]; rfl
      have htr : t.rankIndex = 4 := by omega
      have hturnb : b.turnColor = .black := by rw [← hcol, hpb]; rfl
      rw [hturnb]
      simpa using getPositionsBetween_down hfile hfr htr
    · have hw : PieceId.isWhite piece = true := by rw [hpw]; rfl
      rw [hw] at hrank hdelta
      simp at hrank hdelta
      have hfr : f.rankIndex = 1 := by
        rw [Position.rankIndex, hrank]; rfl
      have htr : t.rankIndex = 3 := by omega
      have hturnw : b.turnColor = .white := by rw [← hcol, hpw]; rfl
      rw [hturnw]
      simpa using getPositionsBetween_up hfile hfr htr

/-- The pawn double advance a2→a4 on `tinyBoard`. -/
def tinyDoubleMove : Move :=
  (calculateMove tinyBoard ⟨'a', '2'⟩ ⟨'a', '4'⟩ none false).getOk.getD dummyMove

def tinyAfterDouble : BoardInfo :=
  (applyMove tinyBoard tinyDoubleMove).toOption.getD newBoardInfo

/-- Witness for C8: after the double advance a2→a4 the en-passant target
is the passed-over square a3; the single advance a2→a3 leaves it null. -/
theorem c8_en_passant_window_witness :
    (tinyAfterDouble.enPassantTarget ≠ none) ∧
    (∃ p, tinyAfterDouble.enPassantTarget = some p ∧
      getPositionsBetween tinyDoubleMove.fromSq tinyDoubleMove.toSq = [p]) ∧
    tinyAfterPawn.enPassantTarget = none :=
  ⟨(c8_en_passant_window tinyBoard ⟨'a', '2'⟩ ⟨'a', '4'⟩ none false
      tinyDoubleMove tinyAfterDouble (by rfl) (by rfl)).1.mpr
      ⟨by rfl, by decide⟩,
   (c8_en_passant_window tinyBoard ⟨'a', '2'⟩ ⟨'a', '4'⟩ none false
      tinyDoubleMove tinyAfterDouble (by rfl) (by rfl)).2 (by rfl) (by decide),
   of_not_not fun hne =>
     ((c8_en_passant_window tinyBoard ⟨'a', '2'⟩ ⟨'a', '3'⟩ none false
        tinyPawnMove tinyAfterPawn (by rfl) (by rfl)).1.mp hne).elim
       fun _ hd => by revert hd; decide⟩

/-- C9.  In the decoded starting position (whose legal-destination
mapping `parseFen` fills via `fillAllowedMoves`), the mapping contains
exactly 20 destination squares: 16 from pawns and 4 from knights. -/
theorem c9_initial_move_count :
    parseFen INITIAL_FEN = .ok initialBoard ∧
    allowedTotal initialBoard = 20 ∧
    allowedCountFor initialBoard PieceId.isPawn = 16 ∧
    allowedCountFor initialBoard
      (fun c => decide (c = 'N' ∨ c = 'n')) = 4 :=
  ⟨rfl, rfl, rfl, rfl⟩

/-- C10.  The algebraic rendering of a move depends on the origin square
only for pawn captures: for every other move (castling included),
changing the origin square does not change the rendered text, i.e. no
origin-square disambiguation characters are ever emitted.  Consequently,
on `twoKnightsBoard` the two distinct legal knight moves c1→d3 and
e1→d3 both render as "Nd3". -/
theorem c10_no_disambiguation :
    (∀ (m : Move) (f' : Position),
        ¬(PieceId.isPawn m.piece = true ∧ m.isCapture = true) →
        moveToAlgebraic { m with fromSq := f' } = moveToAlgebraic m) ∧
    (calculateMove twoKnightsBoard ⟨'c', '1'⟩ ⟨'d', '3'⟩ none false).getOk.map
      Move.fromSq = some ⟨'c', '1'⟩ ∧
    (calculateMove twoKnightsBoard ⟨'e', '1'⟩ ⟨'d', '3'⟩ none false).getOk.map
      Move.fromSq = some ⟨'e', '1'⟩ ∧
    (calculateMove twoKnightsBoard ⟨'c', '1'⟩ ⟨'d', '3'⟩ none false).getOk.map
      moveToAlgebraic = some "Nd3" ∧
    (calculateMove twoKnightsBoard ⟨'e', '1'⟩ ⟨'d', '3'⟩ none false).getOk.map
      moveToAlgebraic = some "Nd3" := by
  refine ⟨fun m f' h => ?_, rfl, rfl, rfl, rfl⟩
  rcases hc : m.castling with _ | side
  · by_cases hp : PieceId.isPawn m.piece = true
    · have hcap : m.isCapture = false := by
        cases hcap : m.isCapture
        · rfl
        · exact absurd ⟨hp, hcap⟩ h
      simp [moveToAlgebraic, hc, hp, hcap]
    · have hp' : PieceId.isPawn m.piece = false := by
        cases hx : PieceId.isPawn m.piece
        · rfl
        · exact absurd hx hp
      simp [moveToAlgebraic, hc, hp']
  · cases side <;> simp [moveToAlgebraic, hc]

/-- Witness for C10's universal part at a concrete move: moving the
origin of a non-capturing pawn move does not change its rendering. -/
theorem c10_no_disambiguation_witness :
    moveToAlgebraic { dummyMove with fromSq := ⟨'b', '2'⟩ } =
      moveToAlgebraic dummyMove :=
  c10_no_disambiguation.1 dummyMove ⟨'b', '2'⟩ (by decide)

end Chess
